import Mathlib

/-
  Shallow embedding of pyXDSM (src/pyxdsm/XDSM.py): the diagram model
  (components, connections, inputs, outputs, processes), the grid/edge
  compiler (_build_node_grid, _build_edges) and the process-chain builder
  (_build_process_chain), together with theorems checking the
  natural-language specification against them.
-/

namespace PyXDSM

/-- Labels in pyXDSM are either a single string or a list of strings
(Python: str vs list/tuple, see `_parse_label`). -/
inductive Label where
  | str (s : String)
  | list (ls : List String)
deriving DecidableEq, Repr

/-- One entry of `self.comps`: `[node_name, style, label, stack, faded]`
appended by `add_system`. -/
structure Comp where
  node_name : String
  style : String
  label : Label
  stack : Bool
  faded : Bool
deriving DecidableEq, Repr

/-- One entry of `self.connections`: `[src, target, style, label, stack, faded]`
appended by `connect`. -/
structure Conn where
  src : String
  target : String
  style : String
  label : Label
  stack : Bool
  faded : Bool
deriving DecidableEq, Repr

/-- The value tuple stored in `self.ins`, `self.left_outs` and
`self.right_outs`: `(node_name, style, label, stack)`. -/
structure IOEntry where
  node_name : String
  style : String
  label : Label
  stack : Bool
deriving DecidableEq, Repr

/-- Python dict assignment `d[k] = v` on an insertion-ordered dict:
replace the value in place if the key exists, otherwise append. -/
def dictSet : List (String × α) → String → α → List (String × α)
  | [], k, v => [(k, v)]
  | (k2, v2) :: rest, k, v =>
      if k2 = k then (k, v) :: rest else (k2, v2) :: dictSet rest k v

/-- Python dict lookup `d[k]` (as an Option; `none` models KeyError). -/
def dictLookup (d : List (String × α)) (k : String) : Option α :=
  (d.find? (fun p => p.1 = k)).map (fun p => p.2)

/-- The mutable state of an `XDSM` object (`__init__`). -/
structure XDSM where
  comps : List Comp
  connections : List Conn
  left_outs : List (String × IOEntry)
  right_outs : List (String × IOEntry)
  ins : List (String × IOEntry)
  processes : List (List String)
  process_arrows : List Bool
deriving DecidableEq, Repr

/-- Freshly constructed `XDSM()`. -/
def XDSM.init : XDSM := ⟨[], [], [], [], [], [], []⟩

/-- `add_system(node_name, style, label, stack=False, faded=False)`. -/
def add_system (x : XDSM) (node_name style : String) (label : Label)
    (stack faded : Bool) : XDSM :=
  { x with comps := x.comps ++ [⟨node_name, style, label, stack, faded⟩] }

/-- `add_input(name, label, style='DataIO', stack=False)`:
`self.ins[name] = ('output_'+name, style, label, stack)`. -/
def add_input (x : XDSM) (name : String) (label : Label) (style : String)
    (stack : Bool) : XDSM :=
  { x with ins := dictSet x.ins name ⟨"output_" ++ name, style, label, stack⟩ }

/-- `add_output(name, label, style='DataIO', stack=False, side="left")`:
writes `left_outs` when `side == "left"`, `right_outs` when
`side == "right"`, and does nothing otherwise (if/elif with no else). -/
def add_output (x : XDSM) (name : String) (label : Label) (style : String)
    (stack : Bool) (side : String) : XDSM :=
  if side = "left" then
    { x with left_outs := dictSet x.left_outs name ⟨"left_output_" ++ name, style, label, stack⟩ }
  else if side = "right" then
    { x with right_outs := dictSet x.right_outs name ⟨"right_output_" ++ name, style, label, stack⟩ }
  else x

/-- `connect(src, target, label, style='DataInter', stack=False, faded=False)`:
raises ValueError on a self-loop, otherwise appends a connection record. -/
def connect (x : XDSM) (src target : String) (label : Label) (style : String)
    (stack faded : Bool) : Except String XDSM :=
  if src = target then .error "Can not connect component to itself"
  else .ok { x with connections := x.connections ++ [⟨src, target, style, label, stack, faded⟩] }

/-- `add_process(systems, arrow=True)`. -/
def add_process (x : XDSM) (systems : List String) (arrow : Bool) : XDSM :=
  { x with processes := x.processes ++ [systems],
           process_arrows := x.process_arrows ++ [arrow] }

/-- `_parse_label`: a list label is joined in an array environment,
a plain label is wrapped in math dollars. -/
def parseLabel : Label → String
  | .list ls =>
      "$\\begin\x7barray\x7d\x7bc\x7d" ++ String.intercalate " \\\\ " ls
        ++ "\\end\x7barray\x7d$"
  | .str s => "$" ++ s ++ "$"

/-- The `node_str` template
`\node [{style}] ({node_name}) {{{node_label}}};`. -/
def nodeStr (style node_name node_label : String) : String :=
  "\\node [" ++ style ++ "] (" ++ node_name ++ ") \x7b" ++ node_label ++ "\x7d;"

/-- Errors raised by the compile-time builders: `danglingRef` models the
KeyError from `row_idx_map`/`col_idx_map` lookups, `unknownProcessSys`
the ValueError from `_build_process_chain`. -/
inductive CompileErr where
  | danglingRef (id : String)
  | unknownProcessSys (id : String)
deriving DecidableEq, Repr

/-- First-error-wins mapping of a fallible function over a list, the shape
of every per-record loop in `_build_node_grid` and `_build_process_chain`. -/
def mapExcept (f : α → Except ε β) : List α → Except ε (List β)
  | [] => .ok []
  | a :: as =>
      match f a with
      | .error e => .error e
      | .ok b =>
          match mapExcept f as with
          | .error e => .error e
          | .ok bs => .ok (b :: bs)

/-- Index of the last occurrence of `name` (dict built by repeated
assignment in the comps loop keeps the last write for a repeated key). -/
def lastIdxOf : List String → String → Option Nat
  | [], _ => none
  | a :: as, name =>
      match lastIdxOf as name with
      | some k => some (k + 1)
      | none => if a = name then some 0 else none

/-- Extra top row: `if self.ins: size += 1` and all comp rows shift down. -/
def rOff (x : XDSM) : Nat := if x.ins.isEmpty then 0 else 1

/-- Extra leading column: `if self.left_outs: size += 1` and all comp
columns shift right. -/
def cOff (x : XDSM) : Nat := if x.left_outs.isEmpty then 0 else 1

/-- Extra trailing column: `if self.right_outs: size += 1` (no shift). -/
def rtOff (x : XDSM) : Nat := if x.right_outs.isEmpty then 0 else 1

/-- Side length of the square grid allocated by `_build_node_grid`. -/
def gridSize (x : XDSM) : Nat := x.comps.length + rOff x + cOff x + rtOff x

/-- The component names, in registration order. -/
def compNames (x : XDSM) : List String := x.comps.map (fun c => c.node_name)

/-- `row_idx_map[name]` after the comps loop: last registration index of
`name` plus the input-row shift. -/
def rowIdx (x : XDSM) (name : String) : Option Nat :=
  (lastIdxOf (compNames x) name).map (fun k => k + rOff x)

/-- `col_idx_map[name]` after the comps loop: last registration index of
`name` plus the left-output column shift. -/
def colIdx (x : XDSM) (name : String) : Option Nat :=
  (lastIdxOf (compNames x) name).map (fun k => k + cOff x)

/-- `row_idx_map[name]` as an Except: KeyError becomes `danglingRef`. -/
def resolveRow (x : XDSM) (name : String) : Except CompileErr Nat :=
  match rowIdx x name with
  | some i => .ok i
  | none => .error (.danglingRef name)

/-- `col_idx_map[name]` as an Except: KeyError becomes `danglingRef`. -/
def resolveCol (x : XDSM) (name : String) : Except CompileErr Nat :=
  match colIdx x name with
  | some j => .ok j
  | none => .error (.danglingRef name)

/-- The node grid: a square array of cell strings. -/
abbrev Grid := List (List String)

/-- `np.empty((size, size))` filled with `''`. -/
def emptyGrid (n : Nat) : Grid := List.replicate n (List.replicate n "")

/-- Read cell `grid[i, j]` (None models an out-of-range access). -/
def getCell (g : Grid) (i j : Nat) : Option String :=
  (g[i]?).bind (fun row => row[j]?)

/-- Write cell `grid[i, j] = v`. -/
def gridSet (g : Grid) (i j : Nat) (v : String) : Grid :=
  match g[i]? with
  | some row => g.set i (row.set j v)
  | none => g

/-- Perform a list of cell writes `(row, col, value)` in order. -/
def placeAll : List (Nat × Nat × String) → Grid → Grid
  | [], g => g
  | (i, j, v) :: rest, g => placeAll rest (gridSet g i j v)

/-- Style of a diagonal component node: base style with `,stack` and
`,faded` suffixes appended when the flags are set. -/
def compStyle (c : Comp) : String :=
  (c.style ++ (if c.stack then ",stack" else ""))
    ++ (if c.faded then ",faded" else "")

/-- Rendered node of a diagonal component. -/
def compNode (c : Comp) : String :=
  nodeStr (compStyle c) c.node_name (parseLabel c.label)

/-- Style of an off-diagonal connection node. -/
def connStyle (c : Conn) : String :=
  (c.style ++ (if c.stack then ",stack" else ""))
    ++ (if c.faded then ",faded" else "")

/-- Off-diagonal node name `'{}-{}'.format(src, target)`. -/
def odNodeName (c : Conn) : String := c.src ++ "-" ++ c.target

/-- Rendered node of a connection. -/
def connNode (c : Conn) : String :=
  nodeStr (connStyle c) (odNodeName c) (parseLabel c.label)

/-- Style of a left/right output node: `style += ',stack'` when stacked. -/
def outStyle (e : IOEntry) : String :=
  e.style ++ (if e.stack then ",stack" else "")

/-- Rendered node of a left/right output. -/
def outNode (e : IOEntry) : String :=
  nodeStr (outStyle e) e.node_name (parseLabel e.label)

/-- Style of an input node. The source does `style = ',stack'` (plain
assignment, not `+=`) when stacked, so the base style is discarded. -/
def inStyle (e : IOEntry) : String :=
  if e.stack then ",stack" else e.style

/-- Rendered node of an input. -/
def inNode (e : IOEntry) : String :=
  nodeStr (inStyle e) e.node_name (parseLabel e.label)

/-- The diagonal placements of the comps loop: component `i` (counting
from `i0`) is written at `(i + r, i + c)`. -/
def compsPlacementsAux (r c : Nat) : Nat → List Comp → List (Nat × Nat × String)
  | _, [] => []
  | i, comp :: rest =>
      (i + r, i + c, compNode comp) :: compsPlacementsAux r c (i + 1) rest

/-- All diagonal placements of `_build_node_grid`. -/
def compsPlacements (x : XDSM) : List (Nat × Nat × String) :=
  compsPlacementsAux (rOff x) (cOff x) 0 x.comps

/-- Body of the connections loop of `_build_node_grid`: the connection is
resolved to the write `grid[row(src), col(target)] = node`. -/
def connResolve (x : XDSM) (c : Conn) : Except CompileErr (Nat × Nat × String) :=
  match resolveRow x c.src with
  | .error e => .error e
  | .ok r =>
      match resolveCol x c.target with
      | .error e => .error e
      | .ok col => .ok (r, col, connNode c)

/-- The connections loop of `_build_node_grid`. -/
def connPlacements (x : XDSM) : Except CompileErr (List (Nat × Nat × String)) :=
  mapExcept (connResolve x) x.connections

/-- Body of the left-outputs loop: `grid[row(comp), 0] = node`. -/
def leftOutResolve (x : XDSM) (p : String × IOEntry) :
    Except CompileErr (Nat × Nat × String) :=
  match resolveRow x p.1 with
  | .error e => .error e
  | .ok r => .ok (r, 0, outNode p.2)

/-- The left-outputs loop of `_build_node_grid`. -/
def leftOutPlacements (x : XDSM) : Except CompileErr (List (Nat × Nat × String)) :=
  mapExcept (leftOutResolve x) x.left_outs

/-- Body of the right-outputs loop: `grid[row(comp), -1] = node`. -/
def rightOutResolve (x : XDSM) (p : String × IOEntry) :
    Except CompileErr (Nat × Nat × String) :=
  match resolveRow x p.1 with
  | .error e => .error e
  | .ok r => .ok (r, gridSize x - 1, outNode p.2)

/-- The right-outputs loop of `_build_node_grid`. -/
def rightOutPlacements (x : XDSM) : Except CompileErr (List (Nat × Nat × String)) :=
  mapExcept (rightOutResolve x) x.right_outs

/-- Body of the inputs loop: `grid[0, col(comp)] = node`. -/
def insResolve (x : XDSM) (p : String × IOEntry) :
    Except CompileErr (Nat × Nat × String) :=
  match resolveCol x p.1 with
  | .error e => .error e
  | .ok col => .ok (0, col, inNode p.2)

/-- The inputs loop of `_build_node_grid`. -/
def insPlacements (x : XDSM) : Except CompileErr (List (Nat × Nat × String)) :=
  mapExcept (insResolve x) x.ins

/-- The grid produced by `_build_node_grid` before serialization:
components, then connections, then left outputs, then right outputs,
then inputs are written into an empty `size × size` grid; a failed
name lookup aborts with `danglingRef`. -/
def buildGrid (x : XDSM) : Except CompileErr Grid :=
  match connPlacements x with
  | .error e => .error e
  | .ok pc =>
      match leftOutPlacements x with
      | .error e => .error e
      | .ok pl =>
          match rightOutPlacements x with
          | .error e => .error e
          | .ok pr =>
              match insPlacements x with
              | .error e => .error e
              | .ok pins =>
                  .ok (placeAll pins (placeAll pr (placeAll pl (placeAll pc
                    (placeAll (compsPlacements x) (emptyGrid (gridSize x)))))))

/-- Serialization of the grid into `rows_str`. -/
def buildNodeGrid (x : XDSM) : Except CompileErr String :=
  match buildGrid x with
  | .error e => .error e
  | .ok g =>
      .ok (String.join ((List.range g.length).zip g |>.map (fun p =>
        "%Row " ++ toString p.1 ++ "\n" ++ String.intercalate "&\n" p.2
          ++ "\\\\" ++ "\n")))

/-- `edge_string.format(start=..., end=...)` in `_build_edges`. -/
def edgeString (start stop : String) : String :=
  "(" ++ start ++ ") edge [DataLine] (" ++ stop ++ ")"

/-- The `h_edges` list of `_build_edges`: connection horizontals, then
left-output horizontals, then right-output horizontals. -/
def hEdges (x : XDSM) : List String :=
  x.connections.map (fun c => edgeString c.src (odNodeName c))
    ++ x.left_outs.map (fun p => edgeString p.1 p.2.node_name)
    ++ x.right_outs.map (fun p => edgeString p.1 p.2.node_name)

/-- The `v_edges` list of `_build_edges`: connection verticals, then
input verticals. -/
def vEdges (x : XDSM) : List String :=
  x.connections.map (fun c => edgeString (odNodeName c) c.target)
    ++ x.ins.map (fun p => edgeString p.1 p.2.node_name)

/-- `paths_str`: the horizontal batch followed by the vertical batch. -/
def buildEdges (x : XDSM) : String :=
  "% Horizontal edges\n" ++ String.intercalate "\n" (hEdges x) ++ "\n"
    ++ "% Vertical edges\n" ++ String.intercalate "\n" (vEdges x) ++ ";"

/-- One `\chainin` line of `_build_process_chain`: the first entry has no
join, later entries join by `ProcessHVA` (directed) or `ProcessHV`. -/
def chainLine (arrow : Bool) (i : Nat) (sys : String) : String :=
  if i = 0 then "\\chainin (" ++ sys ++ ");\n"
  else if arrow then "\\chainin (" ++ sys ++ ") [join=by ProcessHVA];\n"
  else "\\chainin (" ++ sys ++ ") [join=by ProcessHV];\n"

/-- The inner loop of `_build_process_chain` over one process, carrying
the enumeration index; an id absent from `sys_names` raises. -/
def chainLines (names : List String) (arrow : Bool) :
    List String → Nat → Except CompileErr (List String)
  | [], _ => .ok []
  | s :: rest, i =>
      if s ∈ names then
        match chainLines names arrow rest (i + 1) with
        | .error e => .error e
        | .ok ls => .ok (chainLine arrow i s :: ls)
      else .error (.unknownProcessSys s)

/-- One process block: the chain lines wrapped in the pgfonlayer scope. -/
def processChainBlock (names : List String) (proc : List String)
    (arrow : Bool) : Except CompileErr String :=
  match chainLines names arrow proc 0 with
  | .error e => .error e
  | .ok ls =>
      .ok ("\x7b [start chain=process]\n \\begin\x7bpgfonlayer\x7d\x7bprocess\x7d \n"
        ++ String.join ls ++ "\\end\x7bpgfonlayer\x7d\n\x7d")

/-- `_build_process_chain`: concatenation of one block per
`zip(processes, process_arrows)` entry. -/
def buildProcessChain (x : XDSM) : Except CompileErr String :=
  match mapExcept (fun p => processChainBlock (compNames x) p.1 p.2)
      (x.processes.zip x.process_arrows) with
  | .error e => .error e
  | .ok blocks => .ok (String.join blocks)

/-- The grid of a model whose compilation succeeds (used to state concrete
instances). -/
def gridOf (x : XDSM) : Grid :=
  match buildGrid x with
  | .ok g => g
  | .error _ => []

/-- Concrete component `A`. -/
def exA : Comp := ⟨"A", "Analysis", .str "a", false, false⟩

/-- Concrete component `B`. -/
def exB : Comp := ⟨"B", "Analysis", .str "b", false, false⟩

/-- The spec scenario: components `A`, `B` and `connect('A','B','x')`. -/
def exAB : XDSM :=
  ⟨[exA, exB], [⟨"A", "B", "DataInter", .str "x", false, false⟩], [], [], [], [], []⟩

/-- The spec scenario: only `A`, one left output `y`, one right output `w`. -/
def exLR : XDSM :=
  ⟨[exA], [], [("A", ⟨"left_output_A", "DataIO", .str "y", false⟩)],
    [("A", ⟨"right_output_A", "DataIO", .str "w", false⟩)], [], [], []⟩

/-- Only `A` and a stacked input `z` with base style `DataIO`. -/
def exIn : XDSM :=
  ⟨[exA], [], [], [], [("A", ⟨"output_A", "DataIO", .str "z", true⟩)], [], []⟩

/-- Components `A`, `B` and a directed process over both. -/
def exProc : XDSM := ⟨[exA, exB], [], [], [], [], [["A", "B"]], [true]⟩

/-- Only `A`, with a process naming the unregistered id `C`. -/
def exProcBad : XDSM := ⟨[exA], [], [], [], [], [["A", "C"]], [true]⟩

/-- A connection whose endpoints were never registered as components. -/
def exDangle : XDSM :=
  ⟨[], [⟨"A", "B", "DataInter", .str "x", false, false⟩], [], [], [], [], []⟩

/-- Only `A`, with an input keyed by the unregistered id `Q`. -/
def exInDangle : XDSM :=
  ⟨[exA], [], [], [], [("Q", ⟨"output_Q", "DataIO", .str "z", false⟩)], [], []⟩

/-- Only `A`, with a left output keyed by the unregistered id `Q`. -/
def exLoDangle : XDSM :=
  ⟨[exA], [], [("Q", ⟨"left_output_Q", "DataIO", .str "z", false⟩)], [], [], [], []⟩

/-- Only `A`, with a right output keyed by the unregistered id `Q`. -/
def exRoDangle : XDSM :=
  ⟨[exA], [], [], [("Q", ⟨"right_output_Q", "DataIO", .str "z", false⟩)], [], [], []⟩

/-- Components `A`, `B` with a connection, a left output on `A` and an
input on `B`. -/
def exC4 : XDSM :=
  ⟨[exA, exB], [⟨"A", "B", "DataInter", .str "x", false, false⟩],
    [("A", ⟨"left_output_A", "DataIO", .str "y", false⟩)], [],
    [("B", ⟨"output_B", "DataIO", .str "z", false⟩)], [], []⟩

/-! Basic list lemmas used by the grid reasoning. -/

theorem lt_of_getElem?_some {l : List α} {i : Nat} {a : α}
    (h : l[i]? = some a) : i < l.length := by
  by_contra hlt
  rw [List.getElem?_eq_none (Nat.le_of_not_lt hlt)] at h
  exact Option.noConfusion h

theorem getElem?_set_self {l : List α} {i : Nat} {v : α}
    (h : i < l.length) : (l.set i v)[i]? = some v := by
  induction l generalizing i with
  | nil => simp at h
  | cons a as ih =>
      cases i with
      | zero => simp [List.set]
      | succ n =>
          simp only [List.set, List.getElem?_cons_succ]
          exact ih (by simpa using h)

theorem getElem?_set_ne {l : List α} {i j : Nat} {v : α}
    (h : i ≠ j) : (l.set i v)[j]? = l[j]? := by
  induction l generalizing i j with
  | nil => simp
  | cons a as ih =>
      cases i with
      | zero =>
          cases j with
          | zero => exact absurd rfl h
          | succ m => simp [List.set]
      | succ n =>
          cases j with
          | zero => simp [List.set]
          | succ m =>
              simp only [List.set, List.getElem?_cons_succ]
              exact ih (fun hnm => h (by omega))

theorem getElem?_replicate_lt {a : α} {n i : Nat} (h : i < n) :
    (List.replicate n a)[i]? = some a := by
  induction n generalizing i with
  | zero => omega
  | succ m ih =>
      cases i with
      | zero => simp [List.replicate]
      | succ k =>
          simp only [List.replicate, List.getElem?_cons_succ]
          exact ih (by omega)

theorem isSome_getElem?_set {l : List α} {i j : Nat} {v : α} :
    ((l.set i v)[j]?).isSome = (l[j]?).isSome := by
  by_cases h : i = j
  · subst h
    by_cases hi : i < l.length
    · rw [getElem?_set_self hi, List.getElem?_eq_getElem hi]
      rfl
    · rw [List.getElem?_eq_none (by simpa using Nat.le_of_not_lt hi),
        List.getElem?_eq_none (Nat.le_of_not_lt hi)]
  · rw [getElem?_set_ne h]

/-! Grid cell lemmas. -/

theorem getCell_emptyGrid_lt {n i j : Nat} (hi : i < n) (hj : j < n) :
    getCell (emptyGrid n) i j = some "" := by
  simp only [getCell, emptyGrid, getElem?_replicate_lt hi, Option.some_bind,
    getElem?_replicate_lt hj]

theorem isSome_getCell_emptyGrid {n i j : Nat} :
    (getCell (emptyGrid n) i j).isSome = true ↔ (i < n ∧ j < n) := by
  unfold getCell emptyGrid
  by_cases hi : i < n
  · rw [getElem?_replicate_lt hi]
    by_cases hj : j < n
    · rw [Option.some_bind, getElem?_replicate_lt hj]
      simp [hi, hj]
    · rw [Option.some_bind,
        List.getElem?_eq_none (by rw [List.length_replicate]; omega)]
      simp
      omega
  · rw [List.getElem?_eq_none (by rw [List.length_replicate]; omega)]
    simp
    omega

theorem getCell_gridSet_ne {g : Grid} {i j p q : Nat} {v : String}
    (h : (i, j) ≠ (p, q)) : getCell (gridSet g i j v) p q = getCell g p q := by
  unfold gridSet
  cases hg : g[i]? with
  | none => rfl
  | some row =>
      unfold getCell
      by_cases hip : i = p
      · subst hip
        have hj : j ≠ q := by
          intro hjq
          exact h (by rw [hjq])
        rw [getElem?_set_self (lt_of_getElem?_some hg), hg, Option.some_bind,
          Option.some_bind, getElem?_set_ne hj]
      · rw [getElem?_set_ne hip]

theorem getCell_gridSet_self {g : Grid} {i j : Nat} {v : String}
    (h : (getCell g i j).isSome) : getCell (gridSet g i j v) i j = some v := by
  unfold getCell at h
  cases hg : g[i]? with
  | none => rw [hg] at h; simp at h
  | some row =>
      rw [hg, Option.some_bind] at h
      have hj : j < row.length := by
        by_contra hc
        rw [List.getElem?_eq_none (Nat.le_of_not_lt hc)] at h
        simp at h
      unfold gridSet getCell
      rw [hg, getElem?_set_self (lt_of_getElem?_some hg), Option.some_bind,
        getElem?_set_self hj]

theorem isSome_getCell_gridSet {g : Grid} {i j p q : Nat} {v : String} :
    (getCell (gridSet g i j v) p q).isSome = (getCell g p q).isSome := by
  unfold gridSet
  cases hg : g[i]? with
  | none => rfl
  | some row =>
      unfold getCell
      by_cases hip : i = p
      · subst hip
        rw [getElem?_set_self (lt_of_getElem?_some hg), hg, Option.some_bind,
          Option.some_bind]
        exact isSome_getElem?_set
      · rw [getElem?_set_ne hip]

theorem placeAll_append (ps qs : List (Nat × Nat × String)) (g : Grid) :
    placeAll (ps ++ qs) g = placeAll qs (placeAll ps g) := by
  induction ps generalizing g with
  | nil => rfl
  | cons p rest ih =>
      obtain ⟨i, j, v⟩ := p
      simp only [List.cons_append, placeAll]
      exact ih _

theorem getCell_placeAll_skip {ps : List (Nat × Nat × String)} {g : Grid}
    {i j : Nat} (h : ∀ p ∈ ps, (p.1, p.2.1) ≠ (i, j)) :
    getCell (placeAll ps g) i j = getCell g i j := by
  induction ps generalizing g with
  | nil => rfl
  | cons p rest ih =>
      obtain ⟨a, b, v⟩ := p
      simp only [placeAll]
      rw [ih (fun q hq => h q (List.mem_cons_of_mem _ hq)),
        getCell_gridSet_ne (h (a, b, v) (List.mem_cons_self _ _))]

theorem isSome_getCell_placeAll {ps : List (Nat × Nat × String)} {g : Grid}
    {p q : Nat} :
    (getCell (placeAll ps g) p q).isSome = (getCell g p q).isSome := by
  induction ps generalizing g with
  | nil => rfl
  | cons x rest ih =>
      obtain ⟨a, b, v⟩ := x
      simp only [placeAll]
      rw [ih, isSome_getCell_gridSet]

theorem getCell_placeAll_const {ps : List (Nat × Nat × String)} {g : Grid}
    {i j : Nat} {v : String}
    (hval : ∀ p ∈ ps, (p.1, p.2.1) = (i, j) → p.2.2 = v)
    (hmem : ∃ p ∈ ps, (p.1, p.2.1) = (i, j))
    (hsome : (getCell g i j).isSome) :
    getCell (placeAll ps g) i j = some v := by
  induction ps generalizing g with
  | nil => obtain ⟨p, hp, _⟩ := hmem; simp at hp
  | cons x rest ih =>
      obtain ⟨a, b, w⟩ := x
      simp only [placeAll]
      by_cases hr : ∃ p ∈ rest, (p.1, p.2.1) = (i, j)
      · exact ih (fun p hp => hval p (List.mem_cons_of_mem _ hp)) hr
          (by rw [isSome_getCell_gridSet]; exact hsome)
      · have hhead : (a, b) = (i, j) := by
          obtain ⟨p, hp, hcell⟩ := hmem
          rcases List.mem_cons.mp hp with heq | hmem2
          · subst heq
            exact hcell
          · exact absurd ⟨p, hmem2, hcell⟩ hr
        have hw : w = v := hval (a, b, w) (List.mem_cons_self _ _) hhead
        injection hhead with ha hb
        subst ha; subst hb; subst hw
        rw [getCell_placeAll_skip (fun p hp hcell => hr ⟨p, hp, hcell⟩)]
        exact getCell_gridSet_self hsome

/-! Lemmas about `mapExcept` (the first-error-wins loop shape). -/

theorem mapExcept_nil {f : α → Except ε β} : mapExcept f ([] : List α) = .ok [] := rfl

theorem mapExcept_cons_of_ok {f : α → Except ε β} {a : α} {l : List α}
    {b : β} {bs : List β} (hb : f a = .ok b) (hbs : mapExcept f l = .ok bs) :
    mapExcept f (a :: l) = .ok (b :: bs) := by
  simp only [mapExcept]
  rw [hb, hbs]

theorem mapExcept_cons_of_err {f : α → Except ε β} {a : α} {l : List α}
    {e : ε} (hb : f a = .error e) : mapExcept f (a :: l) = .error e := by
  simp only [mapExcept]
  rw [hb]

theorem mapExcept_cons_of_ok_err {f : α → Except ε β} {a : α} {l : List α}
    {b : β} {e : ε} (hb : f a = .ok b) (hbs : mapExcept f l = .error e) :
    mapExcept f (a :: l) = .error e := by
  simp only [mapExcept]
  rw [hb, hbs]

theorem mapExcept_nil_ok {f : α → Except ε β} {bs : List β}
    (h : mapExcept f ([] : List α) = .ok bs) : bs = [] := by
  simp only [mapExcept] at h
  cases h
  rfl

theorem mapExcept_cons_ok {f : α → Except ε β} {a : α} {l : List α}
    {bs : List β} (h : mapExcept f (a :: l) = .ok bs) :
    ∃ b bs2, f a = .ok b ∧ mapExcept f l = .ok bs2 ∧ bs = b :: bs2 := by
  simp only [mapExcept] at h
  split at h
  · cases h
  · rename_i b hb
    split at h
    · cases h
    · rename_i bs2 hbs2
      cases h
      exact ⟨b, bs2, hb, hbs2, rfl⟩

theorem mapExcept_sound {f : α → Except ε β} :
    ∀ {l : List α} {bs : List β}, mapExcept f l = .ok bs →
      ∀ b ∈ bs, ∃ a ∈ l, f a = .ok b := by
  intro l
  induction l with
  | nil =>
      intro bs h b hb
      rw [mapExcept_nil_ok h] at hb
      simp at hb
  | cons a as ih =>
      intro bs h b hb
      obtain ⟨b0, bs2, hb0, hbs2, rfl⟩ := mapExcept_cons_ok h
      rcases List.mem_cons.mp hb with heq | hmem
      · exact ⟨a, List.mem_cons_self _ _, by rw [hb0, heq]⟩
      · obtain ⟨a2, ha2, hfa2⟩ := ih hbs2 b hmem
        exact ⟨a2, List.mem_cons_of_mem _ ha2, hfa2⟩

theorem mapExcept_complete {f : α → Except ε β} :
    ∀ {l : List α} {bs : List β}, mapExcept f l = .ok bs →
      ∀ a ∈ l, ∃ b, f a = .ok b := by
  intro l
  induction l with
  | nil => intro bs _ a ha; simp at ha
  | cons a0 as ih =>
      intro bs h a ha
      obtain ⟨b0, bs2, hb0, hbs2, rfl⟩ := mapExcept_cons_ok h
      rcases List.mem_cons.mp ha with heq | hmem
      · exact ⟨b0, by rw [heq, hb0]⟩
      · exact ih hbs2 a hmem

theorem mapExcept_split {f : α → Except ε β} :
    ∀ {l1 : List α} {a : α} {l2 : List α} {bs : List β},
      mapExcept f (l1 ++ a :: l2) = .ok bs →
      ∃ bs1 b bs2, bs = bs1 ++ b :: bs2 ∧ f a = .ok b ∧
        mapExcept f l2 = .ok bs2 := by
  intro l1
  induction l1 with
  | nil =>
      intro a l2 bs h
      rw [List.nil_append] at h
      obtain ⟨b, bs2, hb, hbs2, rfl⟩ := mapExcept_cons_ok h
      exact ⟨[], b, bs2, rfl, hb, hbs2⟩
  | cons a0 as ih =>
      intro a l2 bs h
      rw [List.cons_append] at h
      obtain ⟨b0, bs0, hb0, hbs0, rfl⟩ := mapExcept_cons_ok h
      obtain ⟨bs1, b, bs2, hbs, hb, hl2⟩ := ih hbs0
      exact ⟨b0 :: bs1, b, bs2, by rw [hbs]; rfl, hb, hl2⟩

theorem mapExcept_ok_or (f : α → Except ε β) (P : ε → Prop) :
    ∀ (l : List α),
      (∀ a ∈ l, (∃ b, f a = .ok b) ∨ ∃ e, P e ∧ f a = .error e) →
      (∃ bs, mapExcept f l = .ok bs) ∨
        ∃ e, P e ∧ mapExcept f l = .error e := by
  intro l
  induction l with
  | nil => intro _; exact Or.inl ⟨[], rfl⟩
  | cons a as ih =>
      intro h
      rcases h a (List.mem_cons_self _ _) with ⟨b, hb⟩ | ⟨e, hPe, he⟩
      · rcases ih (fun a2 ha2 => h a2 (List.mem_cons_of_mem _ ha2)) with
          ⟨bs, hbs⟩ | ⟨e, hPe, he⟩
        · exact Or.inl ⟨b :: bs, mapExcept_cons_of_ok hb hbs⟩
        · exact Or.inr ⟨e, hPe, mapExcept_cons_of_ok_err hb he⟩
      · exact Or.inr ⟨e, hPe, mapExcept_cons_of_err he⟩

theorem mapExcept_length {f : α → Except ε β} :
    ∀ {l : List α} {bs : List β}, mapExcept f l = .ok bs →
      bs.length = l.length := by
  intro l
  induction l with
  | nil =>
      intro bs h
      rw [mapExcept_nil_ok h]
      rfl
  | cons a as ih =>
      intro bs h
      obtain ⟨b0, bs2, _, hbs2, rfl⟩ := mapExcept_cons_ok h
      simp [ih hbs2]

/-! Lemmas about `lastIdxOf` and the row/column index maps. -/

theorem lastIdxOf_eq_none_iff {l : List String} {a : String} :
    lastIdxOf l a = none ↔ a ∉ l := by
  induction l with
  | nil => simp [lastIdxOf]
  | cons x xs ih =>
      simp only [lastIdxOf]
      cases hrec : lastIdxOf xs a with
      | some k =>
          simp only []
          constructor
          · intro h; cases h
          · intro h
            exact absurd (ih.mp (by simp_all)) (by simp_all)
      | none =>
          by_cases hx : x = a
          · simp [hx]
          · simp only [hx, if_false]
            simp [List.mem_cons, ih.mp hrec, Ne.symm hx]

theorem lastIdxOf_getElem? {l : List String} {a : String} {k : Nat}
    (h : lastIdxOf l a = some k) : l[k]? = some a := by
  induction l generalizing k with
  | nil => simp [lastIdxOf] at h
  | cons x xs ih =>
      simp only [lastIdxOf] at h
      cases hrec : lastIdxOf xs a with
      | some m =>
          rw [hrec] at h
          cases h
          simpa using ih hrec
      | none =>
          rw [hrec] at h
          by_cases hx : x = a
          · rw [if_pos hx] at h
            cases h
            simp [hx]
          · rw [if_neg hx] at h
            cases h

theorem lastIdxOf_lt {l : List String} {a : String} {k : Nat}
    (h : lastIdxOf l a = some k) : k < l.length :=
  lt_of_getElem?_some (lastIdxOf_getElem? h)

theorem lastIdxOf_inj {l : List String} {a b : String} {k : Nat}
    (ha : lastIdxOf l a = some k) (hb : lastIdxOf l b = some k) : a = b := by
  have h1 := lastIdxOf_getElem? ha
  have h2 := lastIdxOf_getElem? hb
  rw [h1] at h2
  exact Option.some.inj h2

theorem lastIdxOf_isSome_of_mem {l : List String} {a : String}
    (h : a ∈ l) : ∃ k, lastIdxOf l a = some k := by
  cases hk : lastIdxOf l a with
  | none => exact absurd h (lastIdxOf_eq_none_iff.mp hk)
  | some k => exact ⟨k, rfl⟩

theorem rowIdx_shape {x : XDSM} {n : String} {i : Nat}
    (h : rowIdx x n = some i) :
    ∃ k, lastIdxOf (compNames x) n = some k ∧ i = k + rOff x := by
  unfold rowIdx at h
  cases hk : lastIdxOf (compNames x) n with
  | none => rw [hk] at h; cases h
  | some k =>
      rw [hk] at h
      simp only [Option.map_some'] at h
      exact ⟨k, rfl, (Option.some.inj h).symm⟩

theorem colIdx_shape {x : XDSM} {n : String} {j : Nat}
    (h : colIdx x n = some j) :
    ∃ k, lastIdxOf (compNames x) n = some k ∧ j = k + cOff x := by
  unfold colIdx at h
  cases hk : lastIdxOf (compNames x) n with
  | none => rw [hk] at h; cases h
  | some k =>
      rw [hk] at h
      simp only [Option.map_some'] at h
      exact ⟨k, rfl, (Option.some.inj h).symm⟩

theorem rowIdx_bounds {x : XDSM} {n : String} {i : Nat}
    (h : rowIdx x n = some i) :
    rOff x ≤ i ∧ i < x.comps.length + rOff x := by
  obtain ⟨k, hk, rfl⟩ := rowIdx_shape h
  have := lastIdxOf_lt hk
  unfold compNames at this
  simp only [List.length_map] at this
  omega

theorem colIdx_bounds {x : XDSM} {n : String} {j : Nat}
    (h : colIdx x n = some j) :
    cOff x ≤ j ∧ j < x.comps.length + cOff x := by
  obtain ⟨k, hk, rfl⟩ := colIdx_shape h
  have := lastIdxOf_lt hk
  unfold compNames at this
  simp only [List.length_map] at this
  omega

theorem rowIdx_colIdx_same_name {x : XDSM} {a b : String} {k : Nat}
    (ha : rowIdx x a = some (k + rOff x))
    (hb : colIdx x b = some (k + cOff x)) : a = b := by
  obtain ⟨ka, hka, hka2⟩ := rowIdx_shape ha
  obtain ⟨kb, hkb, hkb2⟩ := colIdx_shape hb
  have h1 : ka = k := by omega
  have h2 : kb = k := by omega
  subst h1
  rw [h2] at hkb
  exact lastIdxOf_inj hka hkb

theorem mem_compNames_of_rowIdx {x : XDSM} {n : String} {i : Nat}
    (h : rowIdx x n = some i) : n ∈ compNames x := by
  unfold rowIdx at h
  cases hk : lastIdxOf (compNames x) n with
  | none => rw [hk] at h; cases h
  | some k =>
      by_contra hmem
      rw [lastIdxOf_eq_none_iff.mpr hmem] at hk
      cases hk

theorem resolveRow_ok_iff {x : XDSM} {n : String} {i : Nat} :
    resolveRow x n = .ok i ↔ rowIdx x n = some i := by
  unfold resolveRow
  cases h : rowIdx x n with
  | none => simp
  | some k => simp

theorem resolveCol_ok_iff {x : XDSM} {n : String} {j : Nat} :
    resolveCol x n = .ok j ↔ colIdx x n = some j := by
  unfold resolveCol
  cases h : colIdx x n with
  | none => simp
  | some k => simp

theorem resolveRow_of_mem {x : XDSM} {n : String} (h : n ∈ compNames x) :
    ∃ i, resolveRow x n = .ok i := by
  obtain ⟨k, hk⟩ := lastIdxOf_isSome_of_mem h
  exact ⟨k + rOff x, resolveRow_ok_iff.mpr (by unfold rowIdx; rw [hk]; rfl)⟩

theorem resolveCol_of_mem {x : XDSM} {n : String} (h : n ∈ compNames x) :
    ∃ j, resolveCol x n = .ok j := by
  obtain ⟨k, hk⟩ := lastIdxOf_isSome_of_mem h
  exact ⟨k + cOff x, resolveCol_ok_iff.mpr (by unfold colIdx; rw [hk]; rfl)⟩

theorem resolveRow_error_of_not_mem {x : XDSM} {n : String}
    (h : n ∉ compNames x) : resolveRow x n = .error (.danglingRef n) := by
  unfold resolveRow rowIdx
  rw [lastIdxOf_eq_none_iff.mpr h]
  rfl

theorem resolveCol_error_of_not_mem {x : XDSM} {n : String}
    (h : n ∉ compNames x) : resolveCol x n = .error (.danglingRef n) := by
  unfold resolveCol colIdx
  rw [lastIdxOf_eq_none_iff.mpr h]
  rfl

/-! Lemmas about insertion-ordered dict assignment. -/

theorem dictLookup_dictSet_self (d : List (String × α)) (k : String) (v : α) :
    dictLookup (dictSet d k v) k = some v := by
  induction d with
  | nil =>
      unfold dictSet dictLookup
      rw [List.find?_cons_of_pos _ (by simp)]
      rfl
  | cons p rest ih =>
      obtain ⟨k2, v2⟩ := p
      by_cases hk : k2 = k
      · unfold dictSet dictLookup
        rw [if_pos hk, List.find?_cons_of_pos _ (by simp)]
        rfl
      · unfold dictSet dictLookup
        rw [if_neg hk, List.find?_cons_of_neg _ (by simp [hk])]
        exact ih

/-! Offset lemmas. -/

theorem rOff_le (x : XDSM) : rOff x ≤ 1 := by
  unfold rOff
  split <;> omega

theorem cOff_le (x : XDSM) : cOff x ≤ 1 := by
  unfold cOff
  split <;> omega

theorem rtOff_le (x : XDSM) : rtOff x ≤ 1 := by
  unfold rtOff
  split <;> omega

theorem rOff_of_nonempty {x : XDSM} (h : x.ins ≠ []) : rOff x = 1 := by
  unfold rOff
  cases h2 : x.ins with
  | nil => exact absurd h2 h
  | cons a l => rfl

theorem cOff_of_nonempty {x : XDSM} (h : x.left_outs ≠ []) : cOff x = 1 := by
  unfold cOff
  cases h2 : x.left_outs with
  | nil => exact absurd h2 h
  | cons a l => rfl

theorem rtOff_of_nonempty {x : XDSM} (h : x.right_outs ≠ []) : rtOff x = 1 := by
  unfold rtOff
  cases h2 : x.right_outs with
  | nil => exact absurd h2 h
  | cons a l => rfl

theorem gridSize_eq (x : XDSM) :
    gridSize x = x.comps.length + rOff x + cOff x + rtOff x := rfl

/-! Injectivity of the index maps. -/

theorem rowIdx_inj {x : XDSM} {a b : String} {i : Nat}
    (ha : rowIdx x a = some i) (hb : rowIdx x b = some i) : a = b := by
  obtain ⟨ka, hka, hka2⟩ := rowIdx_shape ha
  obtain ⟨kb, hkb, hkb2⟩ := rowIdx_shape hb
  have h1 : ka = kb := by omega
  subst h1
  exact lastIdxOf_inj hka hkb

theorem colIdx_inj {x : XDSM} {a b : String} {j : Nat}
    (ha : colIdx x a = some j) (hb : colIdx x b = some j) : a = b := by
  obtain ⟨ka, hka, hka2⟩ := colIdx_shape ha
  obtain ⟨kb, hkb, hkb2⟩ := colIdx_shape hb
  have h1 : ka = kb := by omega
  subst h1
  exact lastIdxOf_inj hka hkb

theorem comps_ne_nil_of_rowIdx {x : XDSM} {n : String} {i : Nat}
    (h : rowIdx x n = some i) : x.comps ≠ [] := by
  intro hnil
  have := mem_compNames_of_rowIdx h
  unfold compNames at this
  rw [hnil] at this
  simp at this

theorem comps_ne_nil_of_colIdx {x : XDSM} {n : String} {j : Nat}
    (h : colIdx x n = some j) : x.comps ≠ [] := by
  obtain ⟨k, hk, _⟩ := colIdx_shape h
  intro hnil
  have := lastIdxOf_getElem? hk
  unfold compNames at this
  rw [hnil] at this
  simp at this

/-! Shape lemmas for the per-record loop bodies. -/

theorem connResolve_ok {x : XDSM} {c : Conn} {p : Nat × Nat × String}
    (h : connResolve x c = .ok p) :
    ∃ ia jb, rowIdx x c.src = some ia ∧ colIdx x c.target = some jb ∧
      p = (ia, jb, connNode c) := by
  unfold connResolve at h
  split at h
  · cases h
  · rename_i ia hia
    split at h
    · cases h
    · rename_i jb hjb
      cases h
      exact ⟨ia, jb, resolveRow_ok_iff.mp hia, resolveCol_ok_iff.mp hjb, rfl⟩

theorem connResolve_of {x : XDSM} {c : Conn} {ia jb : Nat}
    (hia : rowIdx x c.src = some ia) (hjb : colIdx x c.target = some jb) :
    connResolve x c = .ok (ia, jb, connNode c) := by
  unfold connResolve
  rw [resolveRow_ok_iff.mpr hia, resolveCol_ok_iff.mpr hjb]

theorem leftOutResolve_ok {x : XDSM} {q : String × IOEntry}
    {p : Nat × Nat × String} (h : leftOutResolve x q = .ok p) :
    ∃ ir, rowIdx x q.1 = some ir ∧ p = (ir, 0, outNode q.2) := by
  unfold leftOutResolve at h
  split at h
  · cases h
  · rename_i ir hir
    cases h
    exact ⟨ir, resolveRow_ok_iff.mp hir, rfl⟩

theorem rightOutResolve_ok {x : XDSM} {q : String × IOEntry}
    {p : Nat × Nat × String} (h : rightOutResolve x q = .ok p) :
    ∃ ir, rowIdx x q.1 = some ir ∧ p = (ir, gridSize x - 1, outNode q.2) := by
  unfold rightOutResolve at h
  split at h
  · cases h
  · rename_i ir hir
    cases h
    exact ⟨ir, resolveRow_ok_iff.mp hir, rfl⟩

theorem insResolve_ok {x : XDSM} {q : String × IOEntry}
    {p : Nat × Nat × String} (h : insResolve x q = .ok p) :
    ∃ jc, colIdx x q.1 = some jc ∧ p = (0, jc, inNode q.2) := by
  unfold insResolve at h
  split at h
  · cases h
  · rename_i jc hjc
    cases h
    exact ⟨jc, resolveCol_ok_iff.mp hjc, rfl⟩

/-! Grid dimension preservation. -/

def GridDims (g : Grid) (n : Nat) : Prop :=
  g.length = n ∧ ∀ row ∈ g, row.length = n

theorem emptyGrid_dims (n : Nat) : GridDims (emptyGrid n) n := by
  constructor
  · simp [emptyGrid]
  · intro row h
    rw [List.eq_of_mem_replicate h]
    simp

theorem gridSet_dims {g : Grid} {n i j : Nat} {v : String}
    (h : GridDims g n) : GridDims (gridSet g i j v) n := by
  obtain ⟨hl, hr⟩ := h
  unfold gridSet
  cases hg : g[i]? with
  | none => exact ⟨hl, hr⟩
  | some row =>
      constructor
      · rw [List.length_set]
        exact hl
      · intro row2 hrow2
        rcases List.mem_or_eq_of_mem_set hrow2 with hmem | heq
        · exact hr _ hmem
        · rw [heq, List.length_set]
          exact hr row (List.getElem?_mem hg)

theorem placeAll_dims {ps : List (Nat × Nat × String)} {g : Grid} {n : Nat}
    (h : GridDims g n) : GridDims (placeAll ps g) n := by
  induction ps generalizing g with
  | nil => exact h
  | cons p rest ih =>
      obtain ⟨i, j, v⟩ := p
      exact ih (gridSet_dims h)

/-! Lemmas about the diagonal component placements. -/

theorem compsPlacementsAux_mem {r c : Nat} {l : List Comp}
    {p : Nat × Nat × String} :
    ∀ {i0 : Nat}, p ∈ compsPlacementsAux r c i0 l →
      ∃ m comp, l[m]? = some comp ∧
        p = (i0 + m + r, i0 + m + c, compNode comp) := by
  induction l with
  | nil => intro i0 h; simp [compsPlacementsAux] at h
  | cons comp rest ih =>
      intro i0 h
      rcases List.mem_cons.mp h with heq | hmem
      · refine ⟨0, comp, by simp, ?_⟩
        rw [heq]
        have e1 : i0 + 0 + r = i0 + r := by omega
        have e2 : i0 + 0 + c = i0 + c := by omega
        rw [e1, e2]
      · obtain ⟨m, comp2, hm, hp⟩ := ih hmem
        refine ⟨m + 1, comp2, by simpa using hm, ?_⟩
        rw [hp]
        have h1 : i0 + 1 + m + r = i0 + (m + 1) + r := by omega
        have h2 : i0 + 1 + m + c = i0 + (m + 1) + c := by omega
        rw [h1, h2]

theorem getCell_placeAll_compsAux {r c : Nat} {l : List Comp} :
    ∀ {i0 : Nat} {g : Grid} {k : Nat} {comp : Comp},
      l[k]? = some comp →
      (getCell g (i0 + k + r) (i0 + k + c)).isSome →
      getCell (placeAll (compsPlacementsAux r c i0 l) g)
          (i0 + k + r) (i0 + k + c) = some (compNode comp) := by
  induction l with
  | nil => intro i0 g k comp hk; simp at hk
  | cons comp0 rest ih =>
      intro i0 g k comp hk hsome
      cases k with
      | zero =>
          have hcomp : comp0 = comp := by simpa using hk
          subst hcomp
          simp only [compsPlacementsAux, placeAll]
          rw [getCell_placeAll_skip ?later]
          case later =>
            intro p hp hcell
            obtain ⟨m, comp2, hm, hp2⟩ := compsPlacementsAux_mem hp
            rw [hp2] at hcell
            have : i0 + 1 + m + r = i0 + 0 + r := congrArg Prod.fst hcell
            omega
          have e1 : i0 + 0 + r = i0 + r := by omega
          have e2 : i0 + 0 + c = i0 + c := by omega
          rw [e1, e2]
          rw [e1, e2] at hsome
          exact getCell_gridSet_self hsome
      | succ m =>
          simp only [List.getElem?_cons_succ] at hk
          simp only [compsPlacementsAux, placeAll]
          have e1 : i0 + (m + 1) + r = i0 + 1 + m + r := by omega
          have e2 : i0 + (m + 1) + c = i0 + 1 + m + c := by omega
          rw [e1, e2]
          rw [e1, e2] at hsome
          exact ih hk (by rw [isSome_getCell_gridSet]; exact hsome)

theorem compsPlacements_mem {x : XDSM} {p : Nat × Nat × String}
    (h : p ∈ compsPlacements x) :
    ∃ m comp, x.comps[m]? = some comp ∧
      p = (m + rOff x, m + cOff x, compNode comp) := by
  obtain ⟨m, comp, hm, hp⟩ := compsPlacementsAux_mem h
  refine ⟨m, comp, hm, ?_⟩
  rw [hp]
  have h1 : 0 + m + rOff x = m + rOff x := by omega
  have h2 : 0 + m + cOff x = m + cOff x := by omega
  rw [h1, h2]

theorem getCell_compsPlacements {x : XDSM} {g : Grid} {k : Nat} {comp : Comp}
    (hk : x.comps[k]? = some comp)
    (hsome : (getCell g (k + rOff x) (k + cOff x)).isSome) :
    getCell (placeAll (compsPlacements x) g) (k + rOff x) (k + cOff x)
      = some (compNode comp) := by
  have e1 : k + rOff x = 0 + k + rOff x := by omega
  have e2 : k + cOff x = 0 + k + cOff x := by omega
  rw [e1, e2]
  rw [e1, e2] at hsome
  exact getCell_placeAll_compsAux hk hsome

/-! Decomposition of `buildGrid`. -/

theorem buildGrid_parts {x : XDSM} {g : Grid} (h : buildGrid x = .ok g) :
    ∃ pc pl pr pins,
      connPlacements x = .ok pc ∧ leftOutPlacements x = .ok pl ∧
      rightOutPlacements x = .ok pr ∧ insPlacements x = .ok pins ∧
      g = placeAll pins (placeAll pr (placeAll pl (placeAll pc
        (placeAll (compsPlacements x) (emptyGrid (gridSize x)))))) := by
  unfold buildGrid at h
  split at h
  · cases h
  · rename_i pc hpc
    split at h
    · cases h
    · rename_i pl hpl
      split at h
      · cases h
      · rename_i pr hpr
        split at h
        · cases h
        · rename_i pins hpins
          cases h
          exact ⟨pc, pl, pr, pins, hpc, hpl, hpr, hpins, rfl⟩

/-- Cells untouched by the left-output, right-output and input loops:
any cell outside column 0 (when a left output exists), outside the last
column (when a right output exists) and outside row 0 (when an input
exists) keeps its value through the three final loops. -/
theorem getCell_after_io_stages {x : XDSM} {pl pr pins : List (Nat × Nat × String)}
    {gmid : Grid} {i j : Nat}
    (hpl : leftOutPlacements x = .ok pl)
    (hpr : rightOutPlacements x = .ok pr)
    (hpins : insPlacements x = .ok pins)
    (hj0 : x.left_outs ≠ [] → j ≠ 0)
    (hjlast : x.right_outs ≠ [] → j ≠ gridSize x - 1)
    (hi0 : x.ins ≠ [] → i ≠ 0) :
    getCell (placeAll pins (placeAll pr (placeAll pl gmid))) i j
      = getCell gmid i j := by
  have h3 : ∀ p ∈ pins, (p.1, p.2.1) ≠ (i, j) := by
    intro p hp hcell
    obtain ⟨q, hq, hfq⟩ := mapExcept_sound hpins p hp
    obtain ⟨jc, _, hp2⟩ := insResolve_ok hfq
    rw [hp2] at hcell
    have hi : (0 : Nat) = i := congrArg Prod.fst hcell
    exact hi0 (List.ne_nil_of_mem hq) hi.symm
  have h2 : ∀ p ∈ pr, (p.1, p.2.1) ≠ (i, j) := by
    intro p hp hcell
    obtain ⟨q, hq, hfq⟩ := mapExcept_sound hpr p hp
    obtain ⟨ir, _, hp2⟩ := rightOutResolve_ok hfq
    rw [hp2] at hcell
    have hj : gridSize x - 1 = j := congrArg Prod.snd hcell
    exact hjlast (List.ne_nil_of_mem hq) hj.symm
  have h1 : ∀ p ∈ pl, (p.1, p.2.1) ≠ (i, j) := by
    intro p hp hcell
    obtain ⟨q, hq, hfq⟩ := mapExcept_sound hpl p hp
    obtain ⟨ir, _, hp2⟩ := leftOutResolve_ok hfq
    rw [hp2] at hcell
    have hj : (0 : Nat) = j := congrArg Prod.snd hcell
    exact hj0 (List.ne_nil_of_mem hq) hj.symm
  rw [getCell_placeAll_skip h3, getCell_placeAll_skip h2,
    getCell_placeAll_skip h1]

/-- Splitting an association list at a member whose key is unrepeated
afterwards (keys built by dict assignment are unique). -/
theorem nodup_keys_split {l : List (String × IOEntry)} {q : String × IOEntry}
    (h : q ∈ l) (hnd : (l.map Prod.fst).Nodup) :
    ∃ l1 l2, l = l1 ++ q :: l2 ∧ ∀ q2 ∈ l2, q2.1 ≠ q.1 := by
  obtain ⟨l1, l2, rfl⟩ := List.append_of_mem h
  refine ⟨l1, l2, rfl, ?_⟩
  intro q2 hq2 heq
  rw [List.map_append, List.map_cons] at hnd
  have hnd2 := hnd.of_append_right
  rw [List.nodup_cons] at hnd2
  exact hnd2.1 (by
    rw [← heq]
    exact List.mem_map_of_mem _ hq2)

/-! Success and failure characterizations of the grid stages. -/

theorem mem_compNames_of_colIdx {x : XDSM} {n : String} {j : Nat}
    (h : colIdx x n = some j) : n ∈ compNames x := by
  obtain ⟨k, hk, _⟩ := colIdx_shape h
  by_contra hmem
  rw [lastIdxOf_eq_none_iff.mpr hmem] at hk
  cases hk

theorem connResolve_ok_or_dangling (x : XDSM) (c : Conn) :
    (∃ p, connResolve x c = .ok p) ∨
      ∃ id, id ∉ compNames x ∧ connResolve x c = .error (.danglingRef id) := by
  by_cases hs : c.src ∈ compNames x
  · obtain ⟨ia, hia⟩ := resolveRow_of_mem hs
    by_cases ht : c.target ∈ compNames x
    · obtain ⟨jb, hjb⟩ := resolveCol_of_mem ht
      refine Or.inl ⟨(ia, jb, connNode c), ?_⟩
      unfold connResolve
      rw [hia, hjb]
    · refine Or.inr ⟨c.target, ht, ?_⟩
      unfold connResolve
      rw [hia, resolveCol_error_of_not_mem ht]
  · refine Or.inr ⟨c.src, hs, ?_⟩
    unfold connResolve
    rw [resolveRow_error_of_not_mem hs]

theorem leftOutResolve_ok_or_dangling (x : XDSM) (q : String × IOEntry) :
    (∃ p, leftOutResolve x q = .ok p) ∨
      ∃ id, id ∉ compNames x ∧ leftOutResolve x q = .error (.danglingRef id) := by
  by_cases hs : q.1 ∈ compNames x
  · obtain ⟨ir, hir⟩ := resolveRow_of_mem hs
    refine Or.inl ⟨(ir, 0, outNode q.2), ?_⟩
    unfold leftOutResolve
    rw [hir]
  · refine Or.inr ⟨q.1, hs, ?_⟩
    unfold leftOutResolve
    rw [resolveRow_error_of_not_mem hs]

theorem rightOutResolve_ok_or_dangling (x : XDSM) (q : String × IOEntry) :
    (∃ p, rightOutResolve x q = .ok p) ∨
      ∃ id, id ∉ compNames x ∧ rightOutResolve x q = .error (.danglingRef id) := by
  by_cases hs : q.1 ∈ compNames x
  · obtain ⟨ir, hir⟩ := resolveRow_of_mem hs
    refine Or.inl ⟨(ir, gridSize x - 1, outNode q.2), ?_⟩
    unfold rightOutResolve
    rw [hir]
  · refine Or.inr ⟨q.1, hs, ?_⟩
    unfold rightOutResolve
    rw [resolveRow_error_of_not_mem hs]

theorem insResolve_ok_or_dangling (x : XDSM) (q : String × IOEntry) :
    (∃ p, insResolve x q = .ok p) ∨
      ∃ id, id ∉ compNames x ∧ insResolve x q = .error (.danglingRef id) := by
  by_cases hs : q.1 ∈ compNames x
  · obtain ⟨jc, hjc⟩ := resolveCol_of_mem hs
    refine Or.inl ⟨(0, jc, inNode q.2), ?_⟩
    unfold insResolve
    rw [hjc]
  · refine Or.inr ⟨q.1, hs, ?_⟩
    unfold insResolve
    rw [resolveCol_error_of_not_mem hs]

theorem connPlacements_ok_of_all {x : XDSM}
    (hall : ∀ c ∈ x.connections, c.src ∈ compNames x ∧ c.target ∈ compNames x) :
    ∃ pc, connPlacements x = .ok pc := by
  rcases mapExcept_ok_or (connResolve x) (fun _ => False)
      x.connections (fun c hc => by
        obtain ⟨ia, hia⟩ := resolveRow_of_mem (hall c hc).1
        obtain ⟨jb, hjb⟩ := resolveCol_of_mem (hall c hc).2
        refine Or.inl ⟨(ia, jb, connNode c), ?_⟩
        unfold connResolve
        rw [hia, hjb]) with hok | ⟨e, hF, _⟩
  · exact hok
  · exact absurd hF (by simp)

theorem leftOutPlacements_ok_of_all {x : XDSM}
    (hall : ∀ q ∈ x.left_outs, q.1 ∈ compNames x) :
    ∃ pl, leftOutPlacements x = .ok pl := by
  rcases mapExcept_ok_or (leftOutResolve x) (fun _ => False)
      x.left_outs (fun q hq => by
        obtain ⟨ir, hir⟩ := resolveRow_of_mem (hall q hq)
        refine Or.inl ⟨(ir, 0, outNode q.2), ?_⟩
        unfold leftOutResolve
        rw [hir]) with hok | ⟨e, hF, _⟩
  · exact hok
  · exact absurd hF (by simp)

theorem rightOutPlacements_ok_of_all {x : XDSM}
    (hall : ∀ q ∈ x.right_outs, q.1 ∈ compNames x) :
    ∃ pr, rightOutPlacements x = .ok pr := by
  rcases mapExcept_ok_or (rightOutResolve x) (fun _ => False)
      x.right_outs (fun q hq => by
        obtain ⟨ir, hir⟩ := resolveRow_of_mem (hall q hq)
        refine Or.inl ⟨(ir, gridSize x - 1, outNode q.2), ?_⟩
        unfold rightOutResolve
        rw [hir]) with hok | ⟨e, hF, _⟩
  · exact hok
  · exact absurd hF (by simp)

theorem connPlacements_err_of_missing {x : XDSM}
    (hex : ∃ c ∈ x.connections, c.src ∉ compNames x ∨ c.target ∉ compNames x) :
    ∃ id, id ∉ compNames x ∧ connPlacements x = .error (.danglingRef id) := by
  rcases mapExcept_ok_or (connResolve x)
      (fun e => ∃ id, id ∉ compNames x ∧ e = .danglingRef id)
      x.connections (fun c hc => by
        rcases connResolve_ok_or_dangling x c with ⟨p, hp⟩ | ⟨id, hid, herr⟩
        · exact Or.inl ⟨p, hp⟩
        · exact Or.inr ⟨.danglingRef id, ⟨id, hid, rfl⟩, herr⟩)
      with ⟨ps, hps⟩ | ⟨e, ⟨id, hid, heq⟩, herr⟩
  · obtain ⟨c, hc, hmiss⟩ := hex
    obtain ⟨p, hp⟩ := mapExcept_complete hps c hc
    obtain ⟨ia, jb, hia, hjb, _⟩ := connResolve_ok hp
    rcases hmiss with h1 | h1
    · exact absurd (mem_compNames_of_rowIdx hia) h1
    · exact absurd (mem_compNames_of_colIdx hjb) h1
  · subst heq
    exact ⟨id, hid, herr⟩

theorem leftOutPlacements_err_of_missing {x : XDSM}
    (hex : ∃ q ∈ x.left_outs, q.1 ∉ compNames x) :
    ∃ id, id ∉ compNames x ∧ leftOutPlacements x = .error (.danglingRef id) := by
  rcases mapExcept_ok_or (leftOutResolve x)
      (fun e => ∃ id, id ∉ compNames x ∧ e = .danglingRef id)
      x.left_outs (fun q hq => by
        rcases leftOutResolve_ok_or_dangling x q with ⟨p, hp⟩ | ⟨id, hid, herr⟩
        · exact Or.inl ⟨p, hp⟩
        · exact Or.inr ⟨.danglingRef id, ⟨id, hid, rfl⟩, herr⟩)
      with ⟨ps, hps⟩ | ⟨e, ⟨id, hid, heq⟩, herr⟩
  · obtain ⟨q, hq, hmiss⟩ := hex
    obtain ⟨p, hp⟩ := mapExcept_complete hps q hq
    obtain ⟨ir, hir, _⟩ := leftOutResolve_ok hp
    exact absurd (mem_compNames_of_rowIdx hir) hmiss
  · subst heq
    exact ⟨id, hid, herr⟩

theorem rightOutPlacements_err_of_missing {x : XDSM}
    (hex : ∃ q ∈ x.right_outs, q.1 ∉ compNames x) :
    ∃ id, id ∉ compNames x ∧ rightOutPlacements x = .error (.danglingRef id) := by
  rcases mapExcept_ok_or (rightOutResolve x)
      (fun e => ∃ id, id ∉ compNames x ∧ e = .danglingRef id)
      x.right_outs (fun q hq => by
        rcases rightOutResolve_ok_or_dangling x q with ⟨p, hp⟩ | ⟨id, hid, herr⟩
        · exact Or.inl ⟨p, hp⟩
        · exact Or.inr ⟨.danglingRef id, ⟨id, hid, rfl⟩, herr⟩)
      with ⟨ps, hps⟩ | ⟨e, ⟨id, hid, heq⟩, herr⟩
  · obtain ⟨q, hq, hmiss⟩ := hex
    obtain ⟨p, hp⟩ := mapExcept_complete hps q hq
    obtain ⟨ir, hir, _⟩ := rightOutResolve_ok hp
    exact absurd (mem_compNames_of_rowIdx hir) hmiss
  · subst heq
    exact ⟨id, hid, herr⟩

theorem insPlacements_err_of_missing {x : XDSM}
    (hex : ∃ q ∈ x.ins, q.1 ∉ compNames x) :
    ∃ id, id ∉ compNames x ∧ insPlacements x = .error (.danglingRef id) := by
  rcases mapExcept_ok_or (insResolve x)
      (fun e => ∃ id, id ∉ compNames x ∧ e = .danglingRef id)
      x.ins (fun q hq => by
        rcases insResolve_ok_or_dangling x q with ⟨p, hp⟩ | ⟨id, hid, herr⟩
        · exact Or.inl ⟨p, hp⟩
        · exact Or.inr ⟨.danglingRef id, ⟨id, hid, rfl⟩, herr⟩)
      with ⟨ps, hps⟩ | ⟨e, ⟨id, hid, heq⟩, herr⟩
  · obtain ⟨q, hq, hmiss⟩ := hex
    obtain ⟨p, hp⟩ := mapExcept_complete hps q hq
    obtain ⟨jc, hjc, _⟩ := insResolve_ok hp
    exact absurd (mem_compNames_of_colIdx hjc) hmiss
  · subst heq
    exact ⟨id, hid, herr⟩

theorem buildGrid_err_conns {x : XDSM} {e : CompileErr}
    (h : connPlacements x = .error e) : buildGrid x = .error e := by
  unfold buildGrid
  rw [h]

theorem buildGrid_err_louts {x : XDSM} {pc : List (Nat × Nat × String)}
    {e : CompileErr} (hpc : connPlacements x = .ok pc)
    (h : leftOutPlacements x = .error e) : buildGrid x = .error e := by
  unfold buildGrid
  rw [hpc, h]

theorem buildGrid_err_routs {x : XDSM}
    {pc pl : List (Nat × Nat × String)} {e : CompileErr}
    (hpc : connPlacements x = .ok pc) (hpl : leftOutPlacements x = .ok pl)
    (h : rightOutPlacements x = .error e) : buildGrid x = .error e := by
  unfold buildGrid
  rw [hpc, hpl, h]

theorem buildGrid_err_ins {x : XDSM}
    {pc pl pr : List (Nat × Nat × String)} {e : CompileErr}
    (hpc : connPlacements x = .ok pc) (hpl : leftOutPlacements x = .ok pl)
    (hpr : rightOutPlacements x = .ok pr)
    (h : insPlacements x = .error e) : buildGrid x = .error e := by
  unfold buildGrid
  rw [hpc, hpl, hpr, h]

/-! Lemmas about the process-chain builder. -/

theorem chainLines_ok_of_all (names : List String) (arrow : Bool) :
    ∀ (proc : List String) (i : Nat), (∀ s ∈ proc, s ∈ names) →
      ∃ ls, chainLines names arrow proc i = .ok ls ∧
        ls.length = proc.length ∧
        ∀ m : Nat, ls[m]? = Option.map (chainLine arrow (i + m)) (proc[m]?) := by
  intro proc
  induction proc with
  | nil =>
      intro i _
      exact ⟨[], rfl, rfl, fun m => by simp⟩
  | cons s rest ih =>
      intro i hall
      obtain ⟨ls2, hls2, hlen, hidx⟩ := ih (i + 1)
        (fun s2 hs2 => hall s2 (List.mem_cons_of_mem _ hs2))
      refine ⟨chainLine arrow i s :: ls2, ?_, by simp [hlen], ?_⟩
      · unfold chainLines
        rw [if_pos (hall s (List.mem_cons_self _ _)), hls2]
      · intro m
        cases m with
        | zero => simp
        | succ m2 =>
            simp only [List.getElem?_cons_succ]
            have e1 : i + 1 + m2 = i + (m2 + 1) := by omega
            rw [← e1]
            exact hidx m2

theorem chainLines_err_of_missing {names : List String} {arrow : Bool} :
    ∀ {proc : List String}, (∃ s ∈ proc, s ∉ names) → ∀ i : Nat,
      ∃ s2, s2 ∉ names ∧
        chainLines names arrow proc i = .error (.unknownProcessSys s2) := by
  intro proc
  induction proc with
  | nil => intro h i; obtain ⟨s, hs, _⟩ := h; simp at hs
  | cons s rest ih =>
      intro h i
      by_cases hs : s ∈ names
      · have hrest : ∃ s2 ∈ rest, s2 ∉ names := by
          obtain ⟨s2, hs2, hnot⟩ := h
          rcases List.mem_cons.mp hs2 with heq | hmem
          · exact absurd (heq ▸ hs) hnot
          · exact ⟨s2, hmem, hnot⟩
        obtain ⟨s2, hnot, herr⟩ := ih hrest (i + 1)
        refine ⟨s2, hnot, ?_⟩
        unfold chainLines
        rw [if_pos hs, herr]
      · refine ⟨s, hs, ?_⟩
        unfold chainLines
        rw [if_neg hs]

theorem processChainBlock_err_of_missing {names : List String}
    {proc : List String} {arrow : Bool} (h : ∃ s ∈ proc, s ∉ names) :
    ∃ s2, s2 ∉ names ∧
      processChainBlock names proc arrow = .error (.unknownProcessSys s2) := by
  obtain ⟨s2, hnot, herr⟩ := chainLines_err_of_missing h 0
  refine ⟨s2, hnot, ?_⟩
  unfold processChainBlock
  rw [herr]

theorem processChainBlock_ok_of_all {names : List String}
    {proc : List String} {arrow : Bool} (h : ∀ s ∈ proc, s ∈ names) :
    ∃ b, processChainBlock names proc arrow = .ok b := by
  obtain ⟨ls, hls, _, _⟩ := chainLines_ok_of_all names arrow proc 0 h
  refine ⟨"\x7b [start chain=process]\n \\begin\x7bpgfonlayer\x7d\x7bprocess\x7d \n"
    ++ String.join ls ++ "\\end\x7bpgfonlayer\x7d\n\x7d", ?_⟩
  unfold processChainBlock
  rw [hls]

theorem mapExcept_complete_mem {f : α → Except ε β} :
    ∀ {l : List α} {bs : List β}, mapExcept f l = .ok bs →
      ∀ a ∈ l, ∃ b ∈ bs, f a = .ok b := by
  intro l
  induction l with
  | nil => intro bs _ a ha; simp at ha
  | cons a0 as ih =>
      intro bs h a ha
      obtain ⟨b0, bs2, hb0, hbs2, rfl⟩ := mapExcept_cons_ok h
      rcases List.mem_cons.mp ha with heq | hmem
      · exact ⟨b0, List.mem_cons_self _ _, by rw [heq, hb0]⟩
      · obtain ⟨b, hbmem, hfb⟩ := ih hbs2 a hmem
        exact ⟨b, List.mem_cons_of_mem _ hbmem, hfb⟩

theorem rowIdx_of_mem {x : XDSM} {n : String} (h : n ∈ compNames x) :
    ∃ i, rowIdx x n = some i := by
  obtain ⟨k, hk⟩ := lastIdxOf_isSome_of_mem h
  exact ⟨k + rOff x, by unfold rowIdx; rw [hk]; rfl⟩

theorem colIdx_of_mem {x : XDSM} {n : String} (h : n ∈ compNames x) :
    ∃ j, colIdx x n = some j := by
  obtain ⟨k, hk⟩ := lastIdxOf_isSome_of_mem h
  exact ⟨k + cOff x, by unfold colIdx; rw [hk]; rfl⟩

/-! The claims. -/

/-- Claim C1, counterexample: after `add_input('a','x')` then
`add_input('a','y')` the stored entry for `a` holds only the label `y`
(dict assignment replaces the entry), not the label list `['x','y']`
the claim asserts. -/
theorem claim_C1_counterexample :
    (add_input (add_input XDSM.init "a" (.str "x") "DataIO" false)
        "a" (.str "y") "DataIO" false).ins
      = [("a", ⟨"output_a", "DataIO", Label.str "y", false⟩)]
    ∧ dictLookup ((add_input (add_input XDSM.init "a" (.str "x") "DataIO" false)
        "a" (.str "y") "DataIO" false).ins) "a"
      ≠ some ⟨"output_a", "DataIO", Label.list ["x", "y"], false⟩ := by
  constructor
  · decide
  · decide

/-- Claim C1 (amended): a second `add_input` call for the same component id
replaces the stored entry (last write wins, the key keeps its position),
and `add_output` does the same independently per `(component id, side)`. -/
theorem claim_C1_replace (x : XDSM) (name : String) (l1 l2 : Label)
    (sty1 sty2 : String) (st1 st2 : Bool) :
    dictLookup ((add_input (add_input x name l1 sty1 st1) name l2 sty2 st2).ins) name
      = some ⟨"output_" ++ name, sty2, l2, st2⟩
    ∧ dictLookup ((add_output (add_output x name l1 sty1 st1 "left")
          name l2 sty2 st2 "left").left_outs) name
      = some ⟨"left_output_" ++ name, sty2, l2, st2⟩
    ∧ dictLookup ((add_output (add_output x name l1 sty1 st1 "right")
          name l2 sty2 st2 "right").right_outs) name
      = some ⟨"right_output_" ++ name, sty2, l2, st2⟩
    ∧ (add_output (add_output x name l1 sty1 st1 "left") name l2 sty2 st2 "right").left_outs
      = dictSet x.left_outs name ⟨"left_output_" ++ name, sty1, l1, st1⟩
    ∧ (add_output (add_output x name l1 sty1 st1 "left") name l2 sty2 st2 "right").right_outs
      = dictSet x.right_outs name ⟨"right_output_" ++ name, sty2, l2, st2⟩ := by
  have hL : ∀ (y : XDSM) (lbl : Label) (sty : String) (st : Bool),
      add_output y name lbl sty st "left"
        = { y with left_outs := dictSet y.left_outs name ⟨"left_output_" ++ name, sty, lbl, st⟩ } := by
    intro y lbl sty st
    unfold add_output
    rw [if_pos rfl]
  have hR : ∀ (y : XDSM) (lbl : Label) (sty : String) (st : Bool),
      add_output y name lbl sty st "right"
        = { y with right_outs := dictSet y.right_outs name ⟨"right_output_" ++ name, sty, lbl, st⟩ } := by
    intro y lbl sty st
    unfold add_output
    rw [if_neg (by decide), if_pos rfl]
  refine ⟨?_, ?_, ?_, ?_, ?_⟩
  · unfold add_input
    exact dictLookup_dictSet_self _ _ _
  · rw [hL, hL]
    exact dictLookup_dictSet_self _ _ _
  · rw [hR, hR]
    exact dictLookup_dictSet_self _ _ _
  · rw [hL, hR]
  · rw [hL, hR]

/-- Claim C5: `connect(x, x, ...)` fails immediately with the
self-connection ValueError for any label/style/flags, while
`connect(src, target, ...)` with distinct ids appends a connection
record and succeeds. -/
theorem claim_C5_connect (x : XDSM) (a b : String) (label : Label)
    (style : String) (st fd : Bool) :
    (a = b → connect x a b label style st fd
      = .error "Can not connect component to itself")
    ∧ (a ≠ b → connect x a b label style st fd
      = .ok { x with connections := x.connections ++ [⟨a, b, style, label, st, fd⟩] }) := by
  constructor
  · intro h
    unfold connect
    rw [if_pos h]
  · intro h
    unfold connect
    rw [if_neg h]

/-- Claim C5, witness at concrete inputs. -/
theorem claim_C5_witness :
    connect XDSM.init "x" "x" (.str "l") "DataInter" false false
      = .error "Can not connect component to itself"
    ∧ connect XDSM.init "a" "b" (.str "l") "DataInter" false false
      = .ok { XDSM.init with
          connections := [⟨"a", "b", "DataInter", .str "l", false, false⟩] } := by
  constructor
  · exact (claim_C5_connect XDSM.init "x" "x" (.str "l") "DataInter" false false).1 rfl
  · exact (claim_C5_connect XDSM.init "a" "b" (.str "l") "DataInter" false false).2
      (by decide)

/-- Claim C6: the claim says every stacked node keeps its base style and
appends `,stack`; the code does so for components, connections and
outputs, but the inputs loop assigns `style = ',stack'`, discarding the
base style — on the concrete model `exIn` (component `A`, stacked input
of base style `DataIO`) the rendered input node style is `,stack`,
not `DataIO,stack`. -/
theorem claim_C6_input_style_bug :
    inStyle ⟨"output_A", "DataIO", .str "z", true⟩ = ",stack"
    ∧ outStyle ⟨"left_output_A", "DataIO", .str "z", true⟩ = "DataIO,stack"
    ∧ compStyle ⟨"A", "Analysis", .str "a", true, false⟩ = "Analysis,stack"
    ∧ connStyle ⟨"A", "B", "DataInter", .str "x", true, false⟩ = "DataInter,stack"
    ∧ (",stack" : String) ≠ "DataIO,stack"
    ∧ getCell (gridOf exIn) 0 0
        = some (nodeStr ",stack" "output_A" (parseLabel (.str "z"))) := by
  refine ⟨rfl, rfl, rfl, rfl, by decide, ?_⟩
  decide

/-- Claim C9: `add_output` with a side other than `left` or `right` is a
silent no-op — the whole model is returned unchanged and no error is
raised. -/
theorem claim_C9_add_output_noop (x : XDSM) (name : String) (label : Label)
    (style : String) (st : Bool) (side : String)
    (h1 : side ≠ "left") (h2 : side ≠ "right") :
    add_output x name label style st side = x := by
  unfold add_output
  rw [if_neg h1, if_neg h2]

/-- Claim C9, witness at a concrete side string. -/
theorem claim_C9_witness :
    add_output XDSM.init "A" (.str "z") "DataIO" false "top" = XDSM.init :=
  claim_C9_add_output_noop XDSM.init "A" (.str "z") "DataIO" false "top"
    (by decide) (by decide)

theorem getElem?_append_offset {l1 l2 : List α} {k : Nat} :
    (l1 ++ l2)[l1.length + k]? = l2[k]? := by
  rw [List.getElem?_append_right (by omega)]
  congr 1
  omega

/-- Claim C4: every connection yields exactly one horizontal edge
`src → src-target` and one vertical edge `src-target → target` (never a
direct edge `src → target`); every left/right output yields exactly one
horizontal edge and every input exactly one vertical edge; the rendered
path string is the horizontal batch followed by the vertical batch. -/
theorem claim_C4_edges (x : XDSM) :
    (hEdges x).length
      = x.connections.length + x.left_outs.length + x.right_outs.length
    ∧ (vEdges x).length = x.connections.length + x.ins.length
    ∧ (∀ k : Nat, ∀ c : Conn, x.connections[k]? = some c →
        (hEdges x)[k]? = some (edgeString c.src (c.src ++ "-" ++ c.target))
        ∧ (vEdges x)[k]? = some (edgeString (c.src ++ "-" ++ c.target) c.target))
    ∧ (∀ k : Nat, ∀ q : String × IOEntry, x.left_outs[k]? = some q →
        (hEdges x)[x.connections.length + k]?
          = some (edgeString q.1 q.2.node_name))
    ∧ (∀ k : Nat, ∀ q : String × IOEntry, x.right_outs[k]? = some q →
        (hEdges x)[x.connections.length + x.left_outs.length + k]?
          = some (edgeString q.1 q.2.node_name))
    ∧ (∀ k : Nat, ∀ q : String × IOEntry, x.ins[k]? = some q →
        (vEdges x)[x.connections.length + k]?
          = some (edgeString q.1 q.2.node_name))
    ∧ buildEdges x
      = "% Horizontal edges\n" ++ String.intercalate "\n" (hEdges x) ++ "\n"
        ++ "% Vertical edges\n" ++ String.intercalate "\n" (vEdges x) ++ ";" := by
  refine ⟨by simp [hEdges, Nat.add_assoc], by simp [vEdges], ?_, ?_, ?_, ?_, rfl⟩
  · intro k c hk
    have hk2 : k < x.connections.length := lt_of_getElem?_some hk
    constructor
    · have hb1 : k < (x.connections.map
          (fun c => edgeString c.src (odNodeName c))).length := by
        simp only [List.length_map]
        exact hk2
      have hb2 : k < (x.connections.map (fun c => edgeString c.src (odNodeName c))
          ++ x.left_outs.map (fun p => edgeString p.1 p.2.node_name)).length := by
        simp only [List.length_append, List.length_map]
        omega
      unfold hEdges
      rw [List.getElem?_append_left hb2, List.getElem?_append_left hb1,
        List.getElem?_map, hk]
      rfl
    · have hb1 : k < (x.connections.map
          (fun c => edgeString (odNodeName c) c.target)).length := by
        simp only [List.length_map]
        exact hk2
      unfold vEdges
      rw [List.getElem?_append_left hb1, List.getElem?_map, hk]
      rfl
  · intro k q hk
    have hk2 : k < x.left_outs.length := lt_of_getElem?_some hk
    unfold hEdges
    rw [List.append_assoc]
    have e1 : x.connections.length + k
        = (x.connections.map (fun c => edgeString c.src (odNodeName c))).length
          + k := by
      simp only [List.length_map]
    have hb1 : k < (x.left_outs.map
        (fun p => edgeString p.1 p.2.node_name)).length := by
      simp only [List.length_map]
      exact hk2
    rw [e1, getElem?_append_offset, List.getElem?_append_left hb1,
      List.getElem?_map, hk]
    rfl
  · intro k q hk
    unfold hEdges
    rw [List.append_assoc]
    have e1 : x.connections.length + x.left_outs.length + k
        = (x.connections.map (fun c => edgeString c.src (odNodeName c))).length
          + (x.left_outs.length + k) := by
      simp only [List.length_map]
      omega
    have e2 : x.left_outs.length + k
        = (x.left_outs.map (fun p => edgeString p.1 p.2.node_name)).length
          + k := by
      simp only [List.length_map]
    rw [e1, getElem?_append_offset, e2, getElem?_append_offset,
      List.getElem?_map, hk]
    rfl
  · intro k q hk
    unfold vEdges
    have e1 : x.connections.length + k
        = (x.connections.map
            (fun c => edgeString (odNodeName c) c.target)).length + k := by
      simp only [List.length_map]
    rw [e1, getElem?_append_offset, List.getElem?_map, hk]
    rfl

/-- Claim C4, witness on the two-component scenario with one connection,
one left output and one input. -/
theorem claim_C4_witness :
    (hEdges exC4).length = 2
    ∧ (vEdges exC4).length = 2
    ∧ (hEdges exC4)[0]? = some (edgeString "A" "A-B")
    ∧ (vEdges exC4)[0]? = some (edgeString "A-B" "B")
    ∧ (hEdges exC4)[1]? = some (edgeString "A" "left_output_A")
    ∧ (vEdges exC4)[1]? = some (edgeString "B" "output_B") := by
  have h := claim_C4_edges exC4
  refine ⟨h.1, h.2.1, ?_, ?_, ?_, ?_⟩
  · exact (h.2.2.1 0 ⟨"A", "B", "DataInter", .str "x", false, false⟩ rfl).1
  · exact (h.2.2.1 0 ⟨"A", "B", "DataInter", .str "x", false, false⟩ rfl).2
  · exact h.2.2.2.1 0 ("A", ⟨"left_output_A", "DataIO", .str "y", false⟩) rfl
  · exact h.2.2.2.2.2.1 0 ("B", ⟨"output_B", "DataIO", .str "z", false⟩) rfl

/-- Claim C7: `add_process` registers without validation; compiling the
process chain fails with the unknown-component error when a listed id was
never registered; a process over registered ids produces one chain line
per id, the first with no join, each later one joined by `ProcessHVA`
when directed and by `ProcessHV` otherwise. -/
theorem claim_C7_process (x : XDSM) :
    (∀ ss ar, (add_process x ss ar).processes = x.processes ++ [ss]
      ∧ (add_process x ss ar).process_arrows = x.process_arrows ++ [ar])
    ∧ (x.processes.length = x.process_arrows.length →
        (∃ p ∈ x.processes, ∃ s ∈ p, s ∉ compNames x) →
        ∃ id, id ∉ compNames x
          ∧ buildProcessChain x = .error (.unknownProcessSys id))
    ∧ (∀ proc ar, (∀ s ∈ proc, s ∈ compNames x) →
        ∃ ls, chainLines (compNames x) ar proc 0 = .ok ls
          ∧ ls.length = proc.length
          ∧ (∀ s, proc[0]? = some s →
              ls[0]? = some ("\\chainin (" ++ s ++ ");\n"))
          ∧ (∀ m s, proc[m + 1]? = some s →
              ls[m + 1]? = some (if ar
                then "\\chainin (" ++ s ++ ") [join=by ProcessHVA];\n"
                else "\\chainin (" ++ s ++ ") [join=by ProcessHV];\n"))
          ∧ processChainBlock (compNames x) proc ar =
              .ok ("\x7b [start chain=process]\n \\begin\x7bpgfonlayer\x7d\x7bprocess\x7d \n"
                ++ String.join ls ++ "\\end\x7bpgfonlayer\x7d\n\x7d")) := by
  refine ⟨fun ss ar => ⟨rfl, rfl⟩, ?_, ?_⟩
  · intro hlen ⟨p, hp, hbad⟩
    rcases mapExcept_ok_or
        (fun p2 => processChainBlock (compNames x) p2.1 p2.2)
        (fun e => ∃ id, id ∉ compNames x ∧ e = .unknownProcessSys id)
        (x.processes.zip x.process_arrows) (fun p2 hp2 => by
          by_cases hall : ∀ s ∈ p2.1, s ∈ compNames x
          · obtain ⟨b, hb⟩ := processChainBlock_ok_of_all hall
            exact Or.inl ⟨b, hb⟩
          · push_neg at hall
            obtain ⟨s2, hnot, herr⟩ := processChainBlock_err_of_missing hall
            exact Or.inr ⟨.unknownProcessSys s2, ⟨s2, hnot, rfl⟩, herr⟩)
        with ⟨bs, hbs⟩ | ⟨e, ⟨id, hid, heq⟩, herr⟩
    · exfalso
      obtain ⟨k, hk⟩ : ∃ k : Nat, x.processes[k]? = some p := by
        obtain ⟨k, hklt, hke⟩ := List.mem_iff_getElem.mp hp
        exact ⟨k, by rw [List.getElem?_eq_getElem hklt, hke]⟩
      have hklt : k < x.process_arrows.length := by
        have := lt_of_getElem?_some hk
        omega
      obtain ⟨ar, har⟩ : ∃ ar, x.process_arrows[k]? = some ar :=
        ⟨x.process_arrows[k], List.getElem?_eq_getElem hklt⟩
      have hzip : (x.processes.zip x.process_arrows)[k]? = some (p, ar) := by
        rw [List.getElem?_zip_eq_some]
        exact ⟨hk, har⟩
      obtain ⟨b, hb⟩ :=
        mapExcept_complete hbs (p, ar) (List.getElem?_mem hzip)
      obtain ⟨s2, _, herr2⟩ := processChainBlock_err_of_missing hbad
      rw [herr2] at hb
      cases hb
    · subst heq
      refine ⟨id, hid, ?_⟩
      unfold buildProcessChain
      rw [herr]
  · intro proc ar hall
    obtain ⟨ls, hls, hlen, hidx⟩ :=
      chainLines_ok_of_all (compNames x) ar proc 0 hall
    refine ⟨ls, hls, hlen, ?_, ?_, ?_⟩
    · intro s hs
      have := hidx 0
      rw [hs] at this
      simpa [chainLine] using this
    · intro m s hs
      have := hidx (m + 1)
      rw [hs] at this
      rw [this]
      have e1 : 0 + (m + 1) = m + 1 := by omega
      rw [e1]
      cases ar <;> simp [chainLine]
    · unfold processChainBlock
      rw [hls]

/-- Claim C7, witness: a process naming the unregistered id `C` makes the
chain builder fail, and the directed process `[A, B]` over registered
components produces the two expected chain lines. -/
theorem claim_C7_witness :
    (∃ id, id ∉ compNames exProcBad
      ∧ buildProcessChain exProcBad = .error (.unknownProcessSys id))
    ∧ (∃ ls, chainLines (compNames exProc) true ["A", "B"] 0 = .ok ls
        ∧ ls.length = 2
        ∧ (∀ s, (["A", "B"] : List String)[0]? = some s →
            ls[0]? = some ("\\chainin (" ++ s ++ ");\n"))
        ∧ (∀ m s, (["A", "B"] : List String)[m + 1]? = some s →
            ls[m + 1]? = some (if true
              then "\\chainin (" ++ s ++ ") [join=by ProcessHVA];\n"
              else "\\chainin (" ++ s ++ ") [join=by ProcessHV];\n"))
        ∧ processChainBlock (compNames exProc) ["A", "B"] true =
            .ok ("\x7b [start chain=process]\n \\begin\x7bpgfonlayer\x7d\x7bprocess\x7d \n"
              ++ String.join ls ++ "\\end\x7bpgfonlayer\x7d\n\x7d")) := by
  constructor
  · exact (claim_C7_process exProcBad).2.1 (by decide)
      ⟨["A", "C"], by decide, "C", by decide, by decide⟩
  · exact (claim_C7_process exProc).2.2 ["A", "B"] true (by decide)

/-- Claim C8: `connect` performs no existence check against the
registered components — it succeeds for any distinct pair of ids — and a
connection whose source or target was never registered only fails later,
when the grid is compiled, with a dangling-reference lookup failure. -/
theorem claim_C8_dangling (x : XDSM) (src target : String) (label : Label)
    (style : String) (st fd : Bool) (hne : src ≠ target) :
    connect x src target label style st fd
      = .ok { x with
          connections := x.connections ++ [⟨src, target, style, label, st, fd⟩] }
    ∧ (∀ y : XDSM,
        (∃ c ∈ y.connections, c.src ∉ compNames y ∨ c.target ∉ compNames y) →
        ∃ id, id ∉ compNames y ∧ buildGrid y = .error (.danglingRef id)) := by
  constructor
  · unfold connect
    rw [if_neg hne]
  · intro y hex
    obtain ⟨id, hid, herr⟩ := connPlacements_err_of_missing hex
    exact ⟨id, hid, buildGrid_err_conns herr⟩

/-- Claim C8, witness: connecting `A → B` with no components registered
succeeds, and compiling that model fails with a dangling reference. -/
theorem claim_C8_witness :
    connect XDSM.init "A" "B" (.str "x") "DataInter" false false
      = .ok { XDSM.init with
          connections := [⟨"A", "B", "DataInter", .str "x", false, false⟩] }
    ∧ ∃ id, id ∉ compNames exDangle
        ∧ buildGrid exDangle = .error (.danglingRef id) := by
  have h := claim_C8_dangling XDSM.init "A" "B" (.str "x") "DataInter"
    false false (by decide)
  exact ⟨h.1, h.2 exDangle
    ⟨⟨"A", "B", "DataInter", .str "x", false, false⟩, by decide,
      Or.inl (by decide)⟩⟩

/-- Claim C10: `add_input` and `add_output` accept any component id with
no registration-time check (only the targeted dict is changed), and an
input or output keyed by an unregistered id makes grid compilation fail
with a dangling-reference lookup failure. -/
theorem claim_C10_io_dangling (x : XDSM) :
    (∀ name label style st,
      (add_input x name label style st).ins
          = dictSet x.ins name ⟨"output_" ++ name, style, label, st⟩
      ∧ (add_input x name label style st).comps = x.comps
      ∧ (add_input x name label style st).connections = x.connections
      ∧ (add_input x name label style st).left_outs = x.left_outs
      ∧ (add_input x name label style st).right_outs = x.right_outs
      ∧ (add_input x name label style st).processes = x.processes)
    ∧ (∀ name label style st,
      (add_output x name label style st "left").left_outs
        = dictSet x.left_outs name ⟨"left_output_" ++ name, style, label, st⟩
      ∧ (add_output x name label style st "left").comps = x.comps)
    ∧ (∀ name label style st,
      (add_output x name label style st "right").right_outs
        = dictSet x.right_outs name ⟨"right_output_" ++ name, style, label, st⟩
      ∧ (add_output x name label style st "right").comps = x.comps)
    ∧ (∀ y : XDSM,
        (∀ c ∈ y.connections, c.src ∈ compNames y ∧ c.target ∈ compNames y) →
        (∃ q ∈ y.left_outs, q.1 ∉ compNames y) →
        ∃ id, id ∉ compNames y ∧ buildGrid y = .error (.danglingRef id))
    ∧ (∀ y : XDSM,
        (∀ c ∈ y.connections, c.src ∈ compNames y ∧ c.target ∈ compNames y) →
        (∀ q ∈ y.left_outs, q.1 ∈ compNames y) →
        (∃ q ∈ y.right_outs, q.1 ∉ compNames y) →
        ∃ id, id ∉ compNames y ∧ buildGrid y = .error (.danglingRef id))
    ∧ (∀ y : XDSM,
        (∀ c ∈ y.connections, c.src ∈ compNames y ∧ c.target ∈ compNames y) →
        (∀ q ∈ y.left_outs, q.1 ∈ compNames y) →
        (∀ q ∈ y.right_outs, q.1 ∈ compNames y) →
        (∃ q ∈ y.ins, q.1 ∉ compNames y) →
        ∃ id, id ∉ compNames y ∧ buildGrid y = .error (.danglingRef id)) := by
  refine ⟨?_, ?_, ?_, ?_, ?_, ?_⟩
  · intro name label style st
    exact ⟨rfl, rfl, rfl, rfl, rfl, rfl⟩
  · intro name label style st
    constructor
    · unfold add_output
      rw [if_pos rfl]
    · unfold add_output
      rw [if_pos rfl]
  · intro name label style st
    constructor
    · unfold add_output
      rw [if_neg (by decide), if_pos rfl]
    · unfold add_output
      rw [if_neg (by decide), if_pos rfl]
  · intro y hconn hex
    obtain ⟨pc, hpc⟩ := connPlacements_ok_of_all hconn
    obtain ⟨id, hid, herr⟩ := leftOutPlacements_err_of_missing hex
    exact ⟨id, hid, buildGrid_err_louts hpc herr⟩
  · intro y hconn hlo hex
    obtain ⟨pc, hpc⟩ := connPlacements_ok_of_all hconn
    obtain ⟨pl, hpl⟩ := leftOutPlacements_ok_of_all hlo
    obtain ⟨id, hid, herr⟩ := rightOutPlacements_err_of_missing hex
    exact ⟨id, hid, buildGrid_err_routs hpc hpl herr⟩
  · intro y hconn hlo hro hex
    obtain ⟨pc, hpc⟩ := connPlacements_ok_of_all hconn
    obtain ⟨pl, hpl⟩ := leftOutPlacements_ok_of_all hlo
    obtain ⟨pr, hpr⟩ := rightOutPlacements_ok_of_all hro
    obtain ⟨id, hid, herr⟩ := insPlacements_err_of_missing hex
    exact ⟨id, hid, buildGrid_err_ins hpc hpl hpr herr⟩

/-- Claim C10, witness: a left output, a right output and an input keyed
by the unregistered id `Q` each make grid compilation fail. -/
theorem claim_C10_witness :
    (∃ id, id ∉ compNames exLoDangle
      ∧ buildGrid exLoDangle = .error (.danglingRef id))
    ∧ (∃ id, id ∉ compNames exRoDangle
      ∧ buildGrid exRoDangle = .error (.danglingRef id))
    ∧ (∃ id, id ∉ compNames exInDangle
      ∧ buildGrid exInDangle = .error (.danglingRef id)) := by
  have h := claim_C10_io_dangling XDSM.init
  refine ⟨?_, ?_, ?_⟩
  · exact h.2.2.2.1 exLoDangle (by decide)
      ⟨("Q", ⟨"left_output_Q", "DataIO", .str "z", false⟩), by decide, by decide⟩
  · exact h.2.2.2.2.1 exRoDangle (by decide) (by decide)
      ⟨("Q", ⟨"right_output_Q", "DataIO", .str "z", false⟩), by decide, by decide⟩
  · exact h.2.2.2.2.2 exInDangle (by decide) (by decide) (by decide)
      ⟨("Q", ⟨"output_Q", "DataIO", .str "z", false⟩), by decide, by decide⟩

/-- Claim C2: in a compiled grid, a registered connection's node sits at
`(row(source), col(target))` — the row of the source intersected with the
column of the target — and that cell is distinct from
`(row(target), col(source))`. -/
theorem claim_C2_conn_placement (x : XDSM) (g : Grid) (conn : Conn)
    (hok : buildGrid x = .ok g)
    (hmem : conn ∈ x.connections)
    (hne : conn.src ≠ conn.target)
    (huniq : ∀ c ∈ x.connections,
      c.src = conn.src → c.target = conn.target → c = conn) :
    ∃ ia jb i2 j2,
      rowIdx x conn.src = some ia ∧ colIdx x conn.target = some jb ∧
      rowIdx x conn.target = some i2 ∧ colIdx x conn.src = some j2 ∧
      connResolve x conn = .ok (ia, jb, connNode conn) ∧
      getCell g ia jb = some (connNode conn) ∧ (ia, jb) ≠ (i2, j2) := by
  obtain ⟨pc, pl, pr, pins, hpc, hpl, hpr, hpins, hg⟩ := buildGrid_parts hok
  obtain ⟨p, hpmem, hfp⟩ := mapExcept_complete_mem hpc conn hmem
  obtain ⟨ia, jb, hia, hjb, hp⟩ := connResolve_ok hfp
  obtain ⟨i2, hi2⟩ := rowIdx_of_mem (mem_compNames_of_colIdx hjb)
  obtain ⟨j2, hj2⟩ := colIdx_of_mem (mem_compNames_of_rowIdx hia)
  have hiab := rowIdx_bounds hia
  have hjbb := colIdx_bounds hjb
  have hsz := gridSize_eq x
  have hne2 : ia ≠ i2 := by
    intro he
    exact hne (rowIdx_inj hia (he ▸ hi2))
  refine ⟨ia, jb, i2, j2, hia, hjb, hi2, hj2, ?_, ?_,
    fun heq => hne2 (congrArg Prod.fst heq)⟩
  · rw [← hp]
    exact hfp
  rw [hg]
  rw [getCell_after_io_stages hpl hpr hpins
    (fun hlo => by have := cOff_of_nonempty hlo; omega)
    (fun hro => by have := rtOff_of_nonempty hro; omega)
    (fun hins => by have := rOff_of_nonempty hins; omega)]
  apply getCell_placeAll_const
  · intro p2 hp2 hcell
    obtain ⟨c2, hc2mem, hfp2⟩ := mapExcept_sound hpc p2 hp2
    obtain ⟨ia2, jb2, hia2, hjb2, hp2eq⟩ := connResolve_ok hfp2
    rw [hp2eq] at hcell
    have h1 : ia2 = ia := congrArg Prod.fst hcell
    have h2 : jb2 = jb := congrArg Prod.snd hcell
    have hsrc : c2.src = conn.src := rowIdx_inj (h1 ▸ hia2) hia
    have htgt : c2.target = conn.target := colIdx_inj (h2 ▸ hjb2) hjb
    have hc2 : c2 = conn := huniq c2 hc2mem hsrc htgt
    subst hc2
    rw [hp2eq]
  · exact ⟨p, hpmem, by rw [hp]⟩
  · rw [isSome_getCell_placeAll]
    exact isSome_getCell_emptyGrid.mpr ⟨by omega, by omega⟩

/-- Claim C2, witness on the two-component scenario: the `A → B`
connection node lands at `(row(A), col(B)) = (0, 1)` and not at
`(row(B), col(A))`. -/
theorem claim_C2_witness :
    ∃ ia jb i2 j2,
      rowIdx exAB "A" = some ia ∧ colIdx exAB "B" = some jb ∧
      rowIdx exAB "B" = some i2 ∧ colIdx exAB "A" = some j2 ∧
      connResolve exAB ⟨"A", "B", "DataInter", .str "x", false, false⟩
        = .ok (ia, jb, connNode ⟨"A", "B", "DataInter", .str "x", false, false⟩) ∧
      getCell (gridOf exAB) ia jb
        = some (connNode ⟨"A", "B", "DataInter", .str "x", false, false⟩)
      ∧ (ia, jb) ≠ (i2, j2) :=
  claim_C2_conn_placement exAB (gridOf exAB)
    ⟨"A", "B", "DataInter", .str "x", false, false⟩
    rfl (by decide) (by decide) (by decide)

/-- Claim C3: the compiled node grid is square of side
`n + (1 if inputs) + (1 if left outputs) + (1 if right outputs)`;
component `k` sits at `(k + r, k + c)` with `r`/`c` the input-row and
left-output-column shifts; inputs sit in row 0 at their component's
column, left outputs in column 0 at their component's row, and right
outputs in the last column at their component's row. -/
theorem claim_C3_grid_layout (x : XDSM) (g : Grid)
    (hok : buildGrid x = .ok g)
    (hconn : ∀ c ∈ x.connections, c.src ≠ c.target)
    (hins : (x.ins.map Prod.fst).Nodup)
    (hlo : (x.left_outs.map Prod.fst).Nodup)
    (hro : (x.right_outs.map Prod.fst).Nodup) :
    g.length = gridSize x
    ∧ (∀ row ∈ g, row.length = gridSize x)
    ∧ gridSize x = x.comps.length + rOff x + cOff x + rtOff x
    ∧ rOff x = (if x.ins.isEmpty then 0 else 1)
    ∧ cOff x = (if x.left_outs.isEmpty then 0 else 1)
    ∧ rtOff x = (if x.right_outs.isEmpty then 0 else 1)
    ∧ (∀ k : Nat, ∀ comp : Comp, x.comps[k]? = some comp →
        getCell g (k + rOff x) (k + cOff x) = some (compNode comp))
    ∧ (∀ q ∈ x.ins, ∃ jc, colIdx x q.1 = some jc ∧
        getCell g 0 jc = some (inNode q.2))
    ∧ (∀ q ∈ x.left_outs, ∃ ir, rowIdx x q.1 = some ir ∧
        getCell g ir 0 = some (outNode q.2))
    ∧ (∀ q ∈ x.right_outs, ∃ ir, rowIdx x q.1 = some ir ∧
        getCell g ir (gridSize x - 1) = some (outNode q.2)) := by
  obtain ⟨pc, pl, pr, pins, hpc, hpl, hpr, hpins, hg⟩ := buildGrid_parts hok
  have hsz := gridSize_eq x
  have hdims : GridDims g (gridSize x) := by
    rw [hg]
    exact placeAll_dims (placeAll_dims (placeAll_dims (placeAll_dims
      (placeAll_dims (emptyGrid_dims _)))))
  refine ⟨hdims.1, hdims.2, rfl, rfl, rfl, rfl, ?_, ?_, ?_, ?_⟩
  · -- diagonal components
    intro k comp hk
    have hk2 : k < x.comps.length := lt_of_getElem?_some hk
    rw [hg]
    rw [getCell_after_io_stages hpl hpr hpins
      (fun hlo2 => by have := cOff_of_nonempty hlo2; omega)
      (fun hro2 => by have := rtOff_of_nonempty hro2; omega)
      (fun hins2 => by have := rOff_of_nonempty hins2; omega)]
    rw [getCell_placeAll_skip ?hskipconn]
    case hskipconn =>
      intro p hp hcell
      obtain ⟨c2, hc2mem, hfp2⟩ := mapExcept_sound hpc p hp
      obtain ⟨ia2, jb2, hia2, hjb2, hp2eq⟩ := connResolve_ok hfp2
      rw [hp2eq] at hcell
      have h1 : ia2 = k + rOff x := congrArg Prod.fst hcell
      have h2 : jb2 = k + cOff x := congrArg Prod.snd hcell
      exact hconn c2 hc2mem (rowIdx_colIdx_same_name (h1 ▸ hia2) (h2 ▸ hjb2))
    exact getCell_compsPlacements hk
      (isSome_getCell_emptyGrid.mpr ⟨by omega, by omega⟩)
  · -- inputs in row 0
    intro q hq
    obtain ⟨l1, l2, hins_eq, hkeys⟩ := nodup_keys_split hq hins
    have hpins2 := hpins
    unfold insPlacements at hpins2
    rw [hins_eq] at hpins2
    obtain ⟨ps1, b, ps2, hpins_eq, hfb, hl2⟩ := mapExcept_split hpins2
    obtain ⟨jc, hjc, hb⟩ := insResolve_ok hfb
    have hjcb := colIdx_bounds hjc
    have hn1len : 0 < x.comps.length :=
      List.length_pos.mpr (comps_ne_nil_of_colIdx hjc)
    refine ⟨jc, hjc, ?_⟩
    rw [hg, hpins_eq, placeAll_append]
    subst hb
    simp only [placeAll]
    rw [getCell_placeAll_skip ?hskipins2]
    case hskipins2 =>
      intro p2 hp2 hcell
      obtain ⟨q2, hq2mem, hfq2⟩ := mapExcept_sound hl2 p2 hp2
      obtain ⟨jc2, hjc2, hp2eq⟩ := insResolve_ok hfq2
      rw [hp2eq] at hcell
      have h2 : jc2 = jc := congrArg Prod.snd hcell
      exact hkeys q2 hq2mem (colIdx_inj (h2 ▸ hjc2) hjc)
    apply getCell_gridSet_self
    rw [isSome_getCell_placeAll, isSome_getCell_placeAll,
      isSome_getCell_placeAll, isSome_getCell_placeAll,
      isSome_getCell_placeAll]
    exact isSome_getCell_emptyGrid.mpr ⟨by omega, by omega⟩
  · -- left outputs in column 0
    intro q hq
    have hq_ne : x.left_outs ≠ [] := List.ne_nil_of_mem hq
    have hc1 : cOff x = 1 := cOff_of_nonempty hq_ne
    obtain ⟨l1, l2, hlo_eq, hkeys⟩ := nodup_keys_split hq hlo
    have hpl2 := hpl
    unfold leftOutPlacements at hpl2
    rw [hlo_eq] at hpl2
    obtain ⟨ps1, b, ps2, hpl_eq, hfb, hl2⟩ := mapExcept_split hpl2
    obtain ⟨ir, hir, hb⟩ := leftOutResolve_ok hfb
    have hirb := rowIdx_bounds hir
    have hn1len : 0 < x.comps.length :=
      List.length_pos.mpr (comps_ne_nil_of_rowIdx hir)
    refine ⟨ir, hir, ?_⟩
    rw [hg]
    rw [getCell_placeAll_skip ?hskippins]
    case hskippins =>
      intro p2 hp2 hcell
      obtain ⟨q2, hq2mem, hfq2⟩ := mapExcept_sound hpins p2 hp2
      obtain ⟨jc2, hjc2, hp2eq⟩ := insResolve_ok hfq2
      rw [hp2eq] at hcell
      have h1 : (0 : Nat) = ir := congrArg Prod.fst hcell
      have hr1 : rOff x = 1 := rOff_of_nonempty (List.ne_nil_of_mem hq2mem)
      omega
    rw [getCell_placeAll_skip ?hskippr]
    case hskippr =>
      intro p2 hp2 hcell
      obtain ⟨q2, hq2mem, hfq2⟩ := mapExcept_sound hpr p2 hp2
      obtain ⟨ir2, hir2, hp2eq⟩ := rightOutResolve_ok hfq2
      rw [hp2eq] at hcell
      have h2 : gridSize x - 1 = 0 := congrArg Prod.snd hcell
      have hrt1 : rtOff x = 1 := rtOff_of_nonempty (List.ne_nil_of_mem hq2mem)
      omega
    rw [hpl_eq, placeAll_append]
    subst hb
    simp only [placeAll]
    rw [getCell_placeAll_skip ?hskippl2]
    case hskippl2 =>
      intro p2 hp2 hcell
      obtain ⟨q2, hq2mem, hfq2⟩ := mapExcept_sound hl2 p2 hp2
      obtain ⟨ir2, hir2, hp2eq⟩ := leftOutResolve_ok hfq2
      rw [hp2eq] at hcell
      have h1 : ir2 = ir := congrArg Prod.fst hcell
      exact hkeys q2 hq2mem (rowIdx_inj (h1 ▸ hir2) hir)
    apply getCell_gridSet_self
    rw [isSome_getCell_placeAll, isSome_getCell_placeAll,
      isSome_getCell_placeAll]
    exact isSome_getCell_emptyGrid.mpr ⟨by omega, by omega⟩
  · -- right outputs in the last column
    intro q hq
    have hq_ne : x.right_outs ≠ [] := List.ne_nil_of_mem hq
    have hrt1 : rtOff x = 1 := rtOff_of_nonempty hq_ne
    obtain ⟨l1, l2, hro_eq, hkeys⟩ := nodup_keys_split hq hro
    have hpr2 := hpr
    unfold rightOutPlacements at hpr2
    rw [hro_eq] at hpr2
    obtain ⟨ps1, b, ps2, hpr_eq, hfb, hl2⟩ := mapExcept_split hpr2
    obtain ⟨ir, hir, hb⟩ := rightOutResolve_ok hfb
    have hirb := rowIdx_bounds hir
    have hn1len : 0 < x.comps.length :=
      List.length_pos.mpr (comps_ne_nil_of_rowIdx hir)
    refine ⟨ir, hir, ?_⟩
    rw [hg]
    rw [getCell_placeAll_skip ?hskippinsb]
    case hskippinsb =>
      intro p2 hp2 hcell
      obtain ⟨q2, hq2mem, hfq2⟩ := mapExcept_sound hpins p2 hp2
      obtain ⟨jc2, hjc2, hp2eq⟩ := insResolve_ok hfq2
      rw [hp2eq] at hcell
      have h2 : jc2 = gridSize x - 1 := congrArg Prod.snd hcell
      have hjc2b := colIdx_bounds hjc2
      omega
    rw [hpr_eq, placeAll_append]
    subst hb
    simp only [placeAll]
    rw [getCell_placeAll_skip ?hskippr2]
    case hskippr2 =>
      intro p2 hp2 hcell
      obtain ⟨q2, hq2mem, hfq2⟩ := mapExcept_sound hl2 p2 hp2
      obtain ⟨ir2, hir2, hp2eq⟩ := rightOutResolve_ok hfq2
      rw [hp2eq] at hcell
      have h1 : ir2 = ir := congrArg Prod.fst hcell
      exact hkeys q2 hq2mem (rowIdx_inj (h1 ▸ hir2) hir)
    apply getCell_gridSet_self
    rw [isSome_getCell_placeAll, isSome_getCell_placeAll,
      isSome_getCell_placeAll, isSome_getCell_placeAll]
    exact isSome_getCell_emptyGrid.mpr ⟨by omega, by omega⟩

/-- Claim C3, witness on the spec scenario with only `A`, one left output
and one right output: a 3×3 grid, `A` at `(0, 1)`, the left output at
`(0, 0)` and the right output at `(0, 2)`. -/
theorem claim_C3_witness :
    (gridOf exLR).length = 3
    ∧ gridSize exLR = 3
    ∧ getCell (gridOf exLR) 0 1 = some (compNode exA)
    ∧ (∃ ir, rowIdx exLR "A" = some ir ∧ getCell (gridOf exLR) ir 0
        = some (outNode ⟨"left_output_A", "DataIO", .str "y", false⟩))
    ∧ (∃ ir, rowIdx exLR "A" = some ir
        ∧ getCell (gridOf exLR) ir (gridSize exLR - 1)
          = some (outNode ⟨"right_output_A", "DataIO", .str "w", false⟩)) := by
  have h := claim_C3_grid_layout exLR (gridOf exLR) rfl
    (by decide) (by decide) (by decide) (by decide)
  refine ⟨h.1, rfl, ?_, ?_, ?_⟩
  · exact h.2.2.2.2.2.2.1 0 exA rfl
  · exact h.2.2.2.2.2.2.2.2.1
      ("A", ⟨"left_output_A", "DataIO", .str "y", false⟩) (by decide)
  · exact h.2.2.2.2.2.2.2.2.2
      ("A", ⟨"right_output_A", "DataIO", .str "w", false⟩) (by decide)

end PyXDSM
